import Mathlib

/-!
Verification of the `quelling_blade` arena allocator against its
natural-language specification.

The repository ships two benchmark clients
(`micro-bench/tree_creation_and_teardown.py`,
`micro-bench/tree_creation_and_teardown_no_arena.py`) and the build script
(`setup.py`).  The allocator extension module itself
(`quelling_blade.arena_allocatable`) is a compiled extension whose source is
not in the repository snapshot, so the allocator components (Region Manager,
Scope Stack, Allocatable Capability routing and the reference-count hook) are
modelled from the specification; the benchmark clients and the build script
are embedded from their Python sources.
-/

namespace QuellingBlade

set_option maxRecDepth 4096

/-- Heap-vs-arena tag recorded on every instance at construction.
Modelled from the spec: "an implicit tag recording whether it was carved
from a Region Manager or from the general heap". -/
inductive Tag
  | heap
  | arena
deriving DecidableEq, Repr

/-- Error kinds surfaced by the allocator.
Modelled from the spec: section 7 (ERROR HANDLING DESIGN) — ArenaOverflow,
ScopeNestingViolation, UseAfterClose.  `unboundName` is the client-side
name error of the Python benchmark interpreter (never reached by the
benchmarks). -/
inductive ArenaError
  | arenaOverflow
  | scopeNestingViolation
  | useAfterClose
  | unboundName
deriving DecidableEq, Repr

/-- One contiguous memory chunk owned by a Region Manager: its reserved
size in bytes and the high-water allocation cursor.
Modelled from the spec: "a sequence of chunks (each a contiguous byte
buffer with a high-water allocation cursor)". -/
structure Chunk where
  size : Nat
  cursor : Nat
deriving DecidableEq, Repr

/-- Modelled from the spec: sections 3 and 4.2 — the Region Manager owns chunks,
a fixed byte capacity, a used-bytes counter and an "open" flag.
`chunkSize` is the growth granularity used when a fresh chunk is appended.
The chunk list is kept most-recent-first.  Alignment padding is not
charged against capacity (the spec's testable properties account
capacity in cumulative requested bytes only). -/
structure RegionManager where
  capacity : Nat
  chunkSize : Nat
  chunks : List Chunk
  used : Nat
  isOpen : Bool
deriving DecidableEq, Repr

/-- A fresh, open Region Manager with the given fixed capacity. -/
def RegionManager.create (cap csz : Nat) : RegionManager :=
  { capacity := cap, chunkSize := csz, chunks := [], used := 0, isOpen := true }

/-- Modelled from the spec: 4.2 `allocate`, success path — carve `size`
bytes from the current chunk's free tail, appending a new chunk when the
current chunk has insufficient room. -/
def RegionManager.pushBytes (rm : RegionManager) (size : Nat) : RegionManager :=
  match rm.chunks with
  | c :: rest =>
      if c.cursor + size ≤ c.size then
        { rm with
          chunks := { c with cursor := c.cursor + size } :: rest,
          used := rm.used + size }
      else
        { rm with
          chunks := ⟨max rm.chunkSize size, size⟩ :: c :: rest,
          used := rm.used + size }
  | [] =>
      { rm with
        chunks := [⟨max rm.chunkSize size, size⟩],
        used := rm.used + size }

/-- Modelled from the spec: 4.2 `allocate` — the closed-manager and
capacity checks happen before any state is mutated, and on failure the
manager is returned unchanged together with the error, mirroring an
exception raised before mutation; on success the bytes are carved via
`pushBytes`. -/
def RegionManager.allocOp (rm : RegionManager) (size : Nat) :
    Except ArenaError Unit × RegionManager :=
  if rm.isOpen = false then (.error .useAfterClose, rm)
  else if rm.capacity < rm.used + size then (.error .arenaOverflow, rm)
  else (.ok (), rm.pushBytes size)

/-- `allocate` as a fallible state transformer (successful state only). -/
def RegionManager.allocate (rm : RegionManager) (size : Nat) :
    Except ArenaError RegionManager :=
  match rm.allocOp size with
  | (.ok _, rm') => .ok rm'
  | (.error e, _) => .error e

/-- Releasing the chunk list one chunk at a time; the returned number is
the count of release steps performed (one per chunk).
Modelled from the spec: 4.2 `close` — bulk release walks the chunk list
only, never the object graph. -/
def releaseChunkSteps : List Chunk → Nat
  | [] => 0
  | _ :: cs => releaseChunkSteps cs + 1

/-- Modelled from the spec: 4.2 `close` — marks the manager closed and
releases every chunk. -/
def RegionManager.close (rm : RegionManager) : RegionManager :=
  { rm with isOpen := false, chunks := [] }

/-- Number of release steps `close` performs: one per owned chunk. -/
def RegionManager.closeSteps (rm : RegionManager) : Nat :=
  releaseChunkSteps rm.chunks

/-- Sum of the per-chunk allocation cursors of a Region Manager. -/
def chunkAllocSum (rm : RegionManager) : Nat :=
  (rm.chunks.map Chunk.cursor).sum

/-- Run a whole sequence of allocation requests against a manager,
stopping at the first failure. -/
def allocAll (rm : RegionManager) : List Nat → Except ArenaError RegionManager
  | [] => .ok rm
  | s :: rest =>
    match rm.allocate s with
    | .ok rm' => allocAll rm' rest
    | .error e => .error e

/-- A stack frame of the scope stack: the opaque handle returned by
`enter` paired with the frame's Region Manager. -/
structure Frame where
  handle : Nat
  rm : RegionManager
deriving DecidableEq, Repr

/-- Modelled from the spec: 4.3 — the per-thread stack of currently open
arenas, top first, with a counter generating fresh opaque handles. -/
structure ScopeStack where
  frames : List Frame
  nextHandle : Nat
deriving DecidableEq, Repr

/-- The empty scope stack of a fresh thread. -/
def ScopeStack.empty : ScopeStack := ⟨[], 0⟩

/-- Modelled from the spec: 4.3 `enter(capacity) -> handle` — creates a new
Region Manager with the given fixed capacity, pushes it and returns an
opaque handle. -/
def ScopeStack.enter (st : ScopeStack) (cap csz : Nat) : Nat × ScopeStack :=
  (st.nextHandle,
   ⟨⟨st.nextHandle, RegionManager.create cap csz⟩ :: st.frames, st.nextHandle + 1⟩)

/-- Modelled from the spec: 4.3 `exit(handle)` — requires the handle to
reference the current top of stack; pops and closes the Region Manager;
fails with a nesting-violation condition otherwise. -/
def ScopeStack.exitScope (st : ScopeStack) (h : Nat) :
    Except ArenaError (RegionManager × ScopeStack) :=
  match st.frames with
  | [] => .error .scopeNestingViolation
  | f :: rest =>
      if f.handle = h then .ok (f.rm.close, ⟨rest, st.nextHandle⟩)
      else .error .scopeNestingViolation

/-- Modelled from the spec: section 3 — an arena-allocatable instance
carries a strong-reference count, the heap/arena tag fixed at
construction, its ownership edges (ids of instances its fields strongly
reference) and a liveness flag (`Live` vs `Released` of the per-instance
state machine). -/
structure Instance where
  rc : Nat
  tag : Tag
  fields : List Nat
  live : Bool
deriving DecidableEq, Repr

/-- Pointwise update of an instance store. -/
def updStore (store : Nat → Option Instance) (id : Nat) (v : Instance) :
    Nat → Option Instance :=
  fun j => if j = id then some v else store j

/-- Whether the instance stored at `id` is heap-tagged. -/
def isHeapTagged (store : Nat → Option Instance) (id : Nat) : Bool :=
  match store id with
  | some i => i.tag = Tag.heap
  | none => false

/-- Increment the strong-reference count of the instance at `id`. -/
def incRefAt (store : Nat → Option Instance) (id : Nat) :
    Nat → Option Instance :=
  match store id with
  | some i => updStore store id { i with rc := i.rc + 1 }
  | none => store

/-- Modelled from the spec: 4.4 (Reference-Count Runtime Hook) and 9
(iterative work-list teardown): process a work list of pending strong
reference decrements.  On decrement to zero a heap-tagged instance is
released individually and all its ownership edges are pushed for further
decrement; an arena-tagged instance's own storage is left untouched
(reclaimed later by the bulk release) and only its edges to heap-tagged
instances are pushed.  `fuel` bounds the iteration; the returned number
counts the work-list items processed (the teardown steps). -/
def runWl : Nat → (Nat → Option Instance) → List Nat →
    (Nat → Option Instance) × Nat
  | 0, store, _ => (store, 0)
  | _ + 1, store, [] => (store, 0)
  | fuel + 1, store, id :: wl =>
      match store id with
      | none =>
          let r := runWl fuel store wl
          (r.fst, r.snd + 1)
      | some inst =>
          if inst.live = false ∨ inst.rc = 0 then
            let r := runWl fuel store wl
            (r.fst, r.snd + 1)
          else if inst.rc = 1 then
            match inst.tag with
            | .heap =>
                let store1 := updStore store id { inst with rc := 0, live := false }
                let r := runWl fuel store1 (inst.fields ++ wl)
                (r.fst, r.snd + 1)
            | .arena =>
                let store1 := updStore store id { inst with rc := 0 }
                let pushed := inst.fields.filter fun j => isHeapTagged store j
                let r := runWl fuel store1 (pushed ++ wl)
                (r.fst, r.snd + 1)
          else
            let r := runWl fuel (updStore store id { inst with rc := inst.rc - 1 }) wl
            (r.fst, r.snd + 1)

/-- Sum of the reference counts of the instances with id below `n`. -/
def storeRcSum (store : Nat → Option Instance) : Nat → Nat
  | 0 => 0
  | n + 1 => storeRcSum store n + (match store n with | some i => i.rc | none => 0)

/-- Sum of the ownership-edge counts of the instances with id below `n`. -/
def storeFieldSum (store : Nat → Option Instance) : Nat → Nat
  | 0 => 0
  | n + 1 => storeFieldSum store n + (match store n with | some i => i.fields.length | none => 0)

/-- Local variable names occurring in the benchmark clients. -/
inductive Var
  | vroot
  | vob
  | vnew
deriving DecidableEq, Repr

/-- The operations the benchmark clients perform, as executed against the
allocator: scope entry/exit for the `with Arena(...)` block, construction
bound to a local name, first assignment of the link field `a`, rebinding
one local to another, and deletion of a local binding.  `timeProbe`
stands for a wall-clock measurement; it is included so that its absence
from the benchmark traces is expressible. -/
inductive Op
  | enterArena (cap : Nat)
  | exitArena
  | constructBind (v : Var)
  | constructBind2 (v w : Var)
  | setFieldA (o v : Var)
  | bindCopy (v w : Var)
  | del (v : Var)
  | timeProbe
deriving DecidableEq, Repr

/-- The full client-visible allocator state: the per-thread scope stack,
the handle nesting of open `with` blocks, the instance store, the local
variable bindings and the next fresh instance id. -/
structure PState where
  scopes : ScopeStack
  withHandles : List Nat
  store : Nat → Option Instance
  env : Var → Option Nat
  nextId : Nat

/-- The initial state: no open scope, no instances, no bindings. -/
def initState : PState :=
  { scopes := ScopeStack.empty, withHandles := [],
    store := fun _ => none, env := fun _ => none, nextId := 0 }

/-- Modelled from the spec: 4.4 — a full strong-reference decrement
cascade starting from `id`, with fuel sufficient for every store whose
reference counts are consistent with its edges. -/
def PState.decRefCascade (st : PState) (id : Nat) : PState :=
  { st with
    store := (runWl (storeRcSum st.store st.nextId +
                       storeFieldSum st.store st.nextId + 1) st.store [id]).fst }

/-- Construction of a capability-bearing instance bound to `v` (Python
`v = ArenaAllocatable()`): the fresh instance starts with one strong
reference (the binding), the old value of the binding — if any — is
decremented afterwards. -/
def PState.bindNew (st : PState) (v : Var) (tag : Tag) : PState :=
  let id := st.nextId
  let st1 : PState :=
    { st with
      store := updStore st.store id ⟨1, tag, [], true⟩,
      nextId := id + 1,
      env := fun w => if w = v then some id else st.env w }
  match st.env v with
  | some old => st1.decRefCascade old
  | none => st1

/-- Construction bound to two locals at once (Python `v = w = X()`). -/
def PState.bindNew2 (st : PState) (v w : Var) (tag : Tag) : PState :=
  let id := st.nextId
  let st1 : PState :=
    { st with
      store := updStore st.store id ⟨2, tag, [], true⟩,
      nextId := id + 1,
      env := fun u => if u = v ∨ u = w then some id else st.env u }
  match st.env v, st.env w with
  | some oldv, some oldw => (st1.decRefCascade oldv).decRefCascade oldw
  | some oldv, none => st1.decRefCascade oldv
  | none, some oldw => st1.decRefCascade oldw
  | none, none => st1

/-- Modelled from the spec: 4.1 (allocation routing) combined with the
Python reference-binding semantics of the benchmark clients.  `s` is the
instance size declared by the allocatable capability of the constructed
type.  Construction consults the scope stack: a non-empty stack routes
the request to the top Region Manager (tag `arena`, and the allocation
may fail with `arenaOverflow`); an empty stack falls through to the
general heap (tag `heap`).  Scope entry reserves chunks at granularity
equal to the requested capacity. -/
def stepOp (s : Nat) (st : PState) : Op → Except ArenaError PState
  | .enterArena cap =>
      let e := st.scopes.enter cap cap
      .ok { st with scopes := e.snd, withHandles := e.fst :: st.withHandles }
  | .exitArena =>
      match st.withHandles with
      | [] => .error .scopeNestingViolation
      | h :: hs =>
          match st.scopes.exitScope h with
          | .ok out => .ok { st with scopes := out.snd, withHandles := hs }
          | .error e => .error e
  | .constructBind v =>
      match st.scopes.frames with
      | [] => .ok (st.bindNew v Tag.heap)
      | f :: rest =>
          match f.rm.allocOp s with
          | (.ok _, rm') =>
              .ok (PState.bindNew
                { st with scopes := ⟨⟨f.handle, rm'⟩ :: rest, st.scopes.nextHandle⟩ }
                v Tag.arena)
          | (.error e, _) => .error e
  | .constructBind2 v w =>
      match st.scopes.frames with
      | [] => .ok (st.bindNew2 v w Tag.heap)
      | f :: rest =>
          match f.rm.allocOp s with
          | (.ok _, rm') =>
              .ok (PState.bindNew2
                { st with scopes := ⟨⟨f.handle, rm'⟩ :: rest, st.scopes.nextHandle⟩ }
                v w Tag.arena)
          | (.error e, _) => .error e
  | .setFieldA o v =>
      match st.env o, st.env v with
      | some oid, some vid =>
          match st.store oid with
          | some oin =>
              .ok { st with
                    store := incRefAt
                      (updStore st.store oid { oin with fields := oin.fields ++ [vid] })
                      vid }
          | none => .error .unboundName
      | _, _ => .error .unboundName
  | .bindCopy v w =>
      match st.env w with
      | some wid =>
          let st1 : PState :=
            { st with
              store := incRefAt st.store wid,
              env := fun u => if u = v then some wid else st.env u }
          match st.env v with
          | some old => .ok (st1.decRefCascade old)
          | none => .ok st1
      | none => .error .unboundName
  | .del v =>
      match st.env v with
      | some id =>
          .ok (PState.decRefCascade
            { st with env := fun u => if u = v then none else st.env u } id)
      | none => .error .unboundName
  | .timeProbe => .ok st

/-- Run a sequence of client operations, stopping at the first error. -/
def runOps (s : Nat) : PState → List Op → Except ArenaError PState
  | st, [] => .ok st
  | st, op :: rest =>
      match stepOp s st op with
      | .ok st' => runOps s st' rest
      | .error e => .error e

/-- Well-formedness of a client state: ids at or above `nextId` are
unused and every binding refers to an id below `nextId`. -/
def WFState (st : PState) : Prop :=
  (∀ id, st.nextId ≤ id → st.store id = none) ∧
  (∀ v id, st.env v = some id → id < st.nextId)

/-- Embeds `f` of src/micro-bench/tree_creation_and_teardown.py, one
iteration of the outer `for _ in range(10000)` loop:
`with Arena(ArenaAllocatable, 2 ** 32): root = ob = ArenaAllocatable();`
then 20000 times `new = ArenaAllocatable(); ob.a = new; ob = new`;
then `del new; del ob; del root` and the `with`-block exit. -/
def benchIterArena : List Op :=
  Op.enterArena (2 ^ 32) ::
  Op.constructBind2 .vroot .vob ::
  (((List.range 20000).flatMap fun _ =>
      [Op.constructBind .vnew, Op.setFieldA .vob .vnew, Op.bindCopy .vob .vnew]) ++
   [Op.del .vnew, Op.del .vob, Op.del .vroot, Op.exitArena])

/-- Embeds the whole of `f` in
src/micro-bench/tree_creation_and_teardown.py: the outer loop runs the
iteration 10000 times. -/
def benchArenaProg : List Op :=
  (List.range 10000).flatMap fun _ => benchIterArena

/-- Embeds `f` of src/micro-bench/tree_creation_and_teardown_no_arena.py,
one iteration of the outer loop: identical to the arena benchmark's
iteration except that there is no `with Arena(...)` block. -/
def benchIterNoArena : List Op :=
  Op.constructBind2 .vroot .vob ::
  (((List.range 20000).flatMap fun _ =>
      [Op.constructBind .vnew, Op.setFieldA .vob .vnew, Op.bindCopy .vob .vnew]) ++
   [Op.del .vnew, Op.del .vob, Op.del .vroot])

/-- Embeds the whole of `f` in
src/micro-bench/tree_creation_and_teardown_no_arena.py. -/
def benchNoArenaProg : List Op :=
  (List.range 10000).flatMap fun _ => benchIterNoArena

/-- The operations a pure allocator client may perform: instance
construction, field assignment, reference drops (rebinding or deletion)
and arena scope entry/exit.  A wall-clock probe is not one of them. -/
def isWorkloadOp : Op → Bool
  | .enterArena _ => true
  | .exitArena => true
  | .constructBind _ => true
  | .constructBind2 _ _ => true
  | .setFieldA _ _ => true
  | .bindCopy _ _ => true
  | .del _ => true
  | .timeProbe => false

/-- A trace measures wall time when it contains a wall-clock probe. -/
def measuresWallTime (t : List Op) : Prop := Op.timeProbe ∈ t

/-- An instance chain of depth `N` rooted at id `b`: ids `b .. b + N`,
each holding one strong reference to the next, the root held by one
external strong reference, uniformly tagged. -/
def chainStore (b N : Nat) (tag : Tag) : Nat → Option Instance :=
  fun k =>
    if b ≤ k ∧ k ≤ b + N then
      some ⟨1, tag, if k < b + N then [k + 1] else [], true⟩
    else none

/-- The subprocess commands `CMakeBuild.build_extensions` in src/setup.py
can launch: the `cmake --version` probe, and the per-extension configure
and build invocations. -/
inductive BuildCmd
  | cmakeVersionQuery
  | cmakeConfigure (i : Nat)
  | cmakeBuild (i : Nat)
deriving DecidableEq, Repr

/-- The error `CMakeBuild.build_extensions` raises when the CMake
executable is missing. -/
inductive BuildErr
  | runtimeCannotFindCMake
deriving DecidableEq, Repr

/-- Embeds `CMakeBuild.build_extensions` of src/setup.py: first
`subprocess.check_output(['cmake', '--version'])` is attempted; if it
fails with OSError (`cmakeFound = false`) a RuntimeError is raised;
otherwise each extension is configured and built in turn.  The result is
the list of subprocess commands launched paired with the raised error,
if any. -/
def buildExtensions (cmakeFound : Bool) (extCount : Nat) :
    List BuildCmd × Option BuildErr :=
  if cmakeFound = false then
    ([BuildCmd.cmakeVersionQuery], some BuildErr.runtimeCannotFindCMake)
  else
    (BuildCmd.cmakeVersionQuery ::
       ((List.range extCount).flatMap fun i =>
          [BuildCmd.cmakeConfigure i, BuildCmd.cmakeBuild i]),
     none)

/-- Store refinement used for tag immutability: every instance present in
`a` is still present in `b` with the same tag. -/
def TagPres (a b : Nat → Option Instance) : Prop :=
  ∀ id inst, a id = some inst → ∃ inst', b id = some inst' ∧ inst'.tag = inst.tag

/-- A state from which an outer-loop iteration of the arena benchmark
starts: no open scope, no live local bindings, ids from `nextId` up
unused. -/
def IterReady (st : PState) : Prop :=
  st.scopes.frames = [] ∧ st.withHandles = [] ∧
  (∀ v, st.env v = none) ∧
  (∀ id, st.nextId ≤ id → st.store id = none)

/-- The three operations of the benchmark's inner loop body
(`new = ArenaAllocatable(); ob.a = new; ob = new`). -/
def loopBodyOps : List Op :=
  [Op.constructBind .vnew, Op.setFieldA .vob .vnew, Op.bindCopy .vob .vnew]

/-- `n` concatenated copies of an operation list. -/
def repOps : Nat → List Op → List Op
  | 0, _ => []
  | n + 1, l => l ++ repOps n l

/-- The state of the arena benchmark after the `with` entry, the root
construction and `k ≥ 1` iterations of the inner loop: one open arena of
capacity `2 ^ 32` holding `k + 1` allocations of size `s` in a single
chunk; the root instance `b` holds the head of the chain, intermediate
nodes hold one reference each, the current node `b + k` is held by the
chain and the two locals `ob` and `new`. -/
def LoopInv (s b h0 k : Nat) (st : PState) : Prop :=
  st.scopes = ⟨[⟨h0, ⟨2 ^ 32, 2 ^ 32, [⟨max (2 ^ 32) s, (k + 1) * s⟩],
    (k + 1) * s, true⟩⟩], h0 + 1⟩ ∧
  st.withHandles = [h0] ∧
  st.env .vroot = some b ∧
  st.env .vob = some (b + k) ∧
  st.env .vnew = some (b + k) ∧
  st.nextId = b + k + 1 ∧
  st.store b = some ⟨1, .arena, [b + 1], true⟩ ∧
  (∀ j, 1 ≤ j → j < k → st.store (b + j) = some ⟨1, .arena, [b + j + 1], true⟩) ∧
  st.store (b + k) = some ⟨3, .arena, [], true⟩ ∧
  (∀ id, st.nextId ≤ id → st.store id = none)

/-- `pushBytes` advances the used-bytes counter by the requested size and
leaves capacity, chunk granularity and the open flag untouched. -/
theorem pushBytes_fields (rm : RegionManager) (s : Nat) :
    (rm.pushBytes s).used = rm.used + s ∧
    (rm.pushBytes s).isOpen = rm.isOpen ∧
    (rm.pushBytes s).capacity = rm.capacity ∧
    (rm.pushBytes s).chunkSize = rm.chunkSize := by
  obtain ⟨cap, csz, chunks, used, op⟩ := rm
  cases chunks with
  | nil => simp [RegionManager.pushBytes]
  | cons c rest =>
      by_cases hfit : c.cursor + s ≤ c.size <;>
        simp [RegionManager.pushBytes, hfit]

/-- `pushBytes` adds exactly the requested size to the sum of per-chunk
allocation cursors. -/
theorem chunkAllocSum_pushBytes (rm : RegionManager) (s : Nat) :
    chunkAllocSum (rm.pushBytes s) = chunkAllocSum rm + s := by
  obtain ⟨cap, csz, chunks, used, op⟩ := rm
  cases chunks with
  | nil => simp [RegionManager.pushBytes, chunkAllocSum]
  | cons c rest =>
      by_cases hfit : c.cursor + s ≤ c.size <;>
        · simp [RegionManager.pushBytes, chunkAllocSum, hfit]
          ring

/-- Successful allocation: when the manager is open and the request fits
inside the fixed capacity, `allocOp` succeeds and carves the bytes. -/
theorem allocOp_ok (rm : RegionManager) (s : Nat)
    (hopen : rm.isOpen = true) (hcap : rm.used + s ≤ rm.capacity) :
    rm.allocOp s = (.ok (), rm.pushBytes s) := by
  unfold RegionManager.allocOp
  rw [hopen, if_neg (by simp), if_neg (not_lt.mpr hcap)]

/-- Failing allocation: an open manager rejects a request that would
exceed capacity with `arenaOverflow`, and the manager component of the
result is the unchanged input state. -/
theorem allocOp_overflow (rm : RegionManager) (s : Nat)
    (hopen : rm.isOpen = true) (hcap : rm.capacity < rm.used + s) :
    rm.allocOp s = (.error .arenaOverflow, rm) := by
  unfold RegionManager.allocOp
  rw [hopen]
  simp [hcap]

theorem allocate_eq_ok (rm rm' : RegionManager) (s : Nat)
    (h : rm.allocOp s = (.ok (), rm')) : rm.allocate s = .ok rm' := by
  unfold RegionManager.allocate
  rw [h]

/-- Running a whole in-capacity request sequence succeeds and adds the
cumulative requested size to both the used counter and the chunk cursors. -/
theorem allocAll_ok (sizes : List Nat) :
    ∀ rm : RegionManager, rm.isOpen = true →
      rm.used + sizes.sum ≤ rm.capacity →
      ∃ rm', allocAll rm sizes = .ok rm' ∧
        rm'.used = rm.used + sizes.sum ∧ rm'.isOpen = true ∧
        rm'.capacity = rm.capacity ∧ rm'.chunkSize = rm.chunkSize ∧
        chunkAllocSum rm' = chunkAllocSum rm + sizes.sum := by
  induction sizes with
  | nil =>
      intro rm hopen _
      exact ⟨rm, rfl, by simp, hopen, rfl, rfl, by simp⟩
  | cons s rest ih =>
      intro rm hopen hcap
      have hsle : s ≤ (s :: rest).sum := by simp
      have hs : rm.used + s ≤ rm.capacity := by omega
      have hop := allocOp_ok rm s hopen hs
      obtain ⟨hused, hopen1, hycap, hcsz⟩ := pushBytes_fields rm s
      have hsum := chunkAllocSum_pushBytes rm s
      have hcap1 : (rm.pushBytes s).used + rest.sum ≤ (rm.pushBytes s).capacity := by
        rw [hused, hycap]
        simp only [List.sum_cons] at hcap
        omega
      obtain ⟨rm2, hall, h2used, h2open, h2cap, h2csz, h2sum⟩ :=
        ih (rm.pushBytes s) (by rw [hopen1, hopen]) hcap1
      refine ⟨rm2, ?_, ?_, h2open, by rw [h2cap, hycap], by rw [h2csz, hcsz], ?_⟩
      · unfold allocAll
        rw [allocate_eq_ok rm (rm.pushBytes s) s hop]
        exact hall
      · rw [h2used, hused]; simp; ring
      · rw [h2sum, hsum]; simp; ring

/-- C3: for every capacity `C` and every allocation sequence whose
cumulative requested size is at most `C`, every allocation succeeds, the
sum of per-chunk allocations never exceeds `C` at any intermediate point,
and the subsequent `close()` releases all chunks without error. -/
theorem C3_within_capacity_all_succeed (C csz : Nat) (sizes : List Nat)
    (h : sizes.sum ≤ C) :
    (∃ rm', allocAll (RegionManager.create C csz) sizes = .ok rm' ∧
       rm'.used = sizes.sum ∧
       (rm'.close).isOpen = false ∧ (rm'.close).chunks = []) ∧
    (∀ pre suf, sizes = pre ++ suf →
       ∃ rmp, allocAll (RegionManager.create C csz) pre = .ok rmp ∧
         chunkAllocSum rmp ≤ C) := by
  constructor
  · obtain ⟨rm', hall, hused, -, -, -, -⟩ :=
      allocAll_ok sizes (RegionManager.create C csz) rfl (by simpa [RegionManager.create])
    exact ⟨rm', hall, by simpa [RegionManager.create] using hused, rfl, rfl⟩
  · intro pre suf hsplit
    have hpre : pre.sum ≤ C := by
      have : pre.sum ≤ sizes.sum := by
        rw [hsplit]; simp
      omega
    obtain ⟨rmp, hall, -, -, -, -, hsum⟩ :=
      allocAll_ok pre (RegionManager.create C csz) rfl (by simpa [RegionManager.create])
    refine ⟨rmp, hall, ?_⟩
    have : chunkAllocSum (RegionManager.create C csz) = 0 := by
      simp [chunkAllocSum, RegionManager.create]
    omega

/-- Witness for `C3_within_capacity_all_succeed` at `C = 10`,
`sizes = [3, 3, 3]`. -/
theorem C3_witness :
    ([3, 3, 3] : List Nat).sum ≤ 10 ∧
    ((∃ rm', allocAll (RegionManager.create 10 4) [3, 3, 3] = .ok rm' ∧
        rm'.used = ([3, 3, 3] : List Nat).sum ∧
        (rm'.close).isOpen = false ∧ (rm'.close).chunks = []) ∧
     (∀ pre suf, ([3, 3, 3] : List Nat) = pre ++ suf →
        ∃ rmp, allocAll (RegionManager.create 10 4) pre = .ok rmp ∧
          chunkAllocSum rmp ≤ 10)) :=
  ⟨by decide, C3_within_capacity_all_succeed 10 4 [3, 3, 3] (by decide)⟩

/-- C2: for every capacity `C` and every request sequence whose cumulative
size first exceeds `C` at the k-th allocation (prefix `pre` within
capacity, next request `sk` pushing past it), the first k-1 allocations
succeed, the k-th fails with the distinguishable `arenaOverflow`
condition, and the failing call leaves the manager — in particular its
used-bytes counter — unchanged. -/
theorem C2_first_overflow_rejected (C csz sk : Nat) (pre : List Nat)
    (h1 : pre.sum ≤ C) (h2 : C < pre.sum + sk) :
    ∃ rmp, allocAll (RegionManager.create C csz) pre = .ok rmp ∧
      (rmp.allocOp sk).fst = .error .arenaOverflow ∧
      (rmp.allocOp sk).snd = rmp ∧
      (rmp.allocOp sk).snd.used = rmp.used := by
  obtain ⟨rmp, hall, hused, hopen, hcap, -, -⟩ :=
    allocAll_ok pre (RegionManager.create C csz) rfl (by simpa [RegionManager.create])
  have hover : rmp.capacity < rmp.used + sk := by
    rw [hcap, hused]
    simpa [RegionManager.create] using h2
  have hfail := allocOp_overflow rmp sk hopen hover
  exact ⟨rmp, hall, by rw [hfail], by rw [hfail], by rw [hfail]⟩

/-- Witness for `C2_first_overflow_rejected` at `C = 10`,
`pre = [4, 5]`, `sk = 3`. -/
theorem C2_witness :
    ([4, 5] : List Nat).sum ≤ 10 ∧ 10 < ([4, 5] : List Nat).sum + 3 ∧
    (∃ rmp, allocAll (RegionManager.create 10 8) [4, 5] = .ok rmp ∧
       (rmp.allocOp 3).fst = .error .arenaOverflow ∧
       (rmp.allocOp 3).snd = rmp ∧
       (rmp.allocOp 3).snd.used = rmp.used) :=
  ⟨by decide, by decide,
    C2_first_overflow_rejected 10 8 3 [4, 5] (by decide) (by decide)⟩

/-- C4: `exit(handle)` succeeds (popping and closing the top Region
Manager) exactly when the handle references the current top of the scope
stack; a handle that does not match the top — including closing an outer
scope while an inner one is open — raises `scopeNestingViolation`, so
scopes close in strict LIFO order. -/
theorem exitScope_nil (nh h : Nat) :
    (⟨[], nh⟩ : ScopeStack).exitScope h = .error .scopeNestingViolation := rfl

theorem exitScope_cons (f : Frame) (rest : List Frame) (nh h : Nat) :
    (⟨f :: rest, nh⟩ : ScopeStack).exitScope h =
      if f.handle = h then .ok (f.rm.close, ⟨rest, nh⟩)
      else .error .scopeNestingViolation := rfl

theorem C4_exit_strict_lifo (st : ScopeStack) (h : Nat) :
    ((∃ out, st.exitScope h = .ok out) ↔
       ∃ f rest, st.frames = f :: rest ∧ f.handle = h) ∧
    (∀ f rest, st.frames = f :: rest → f.handle = h →
       st.exitScope h = .ok (f.rm.close, ⟨rest, st.nextHandle⟩)) ∧
    (∀ f rest, st.frames = f :: rest → f.handle ≠ h →
       st.exitScope h = .error .scopeNestingViolation) ∧
    (st.frames = [] → st.exitScope h = .error .scopeNestingViolation) := by
  obtain ⟨frames, nh⟩ := st
  cases frames with
  | nil =>
      refine ⟨⟨fun hout => ?_, fun hex => ?_⟩,
        fun f rest hc => absurd hc (by simp),
        fun f rest hc => absurd hc (by simp),
        fun _ => exitScope_nil nh h⟩
      · obtain ⟨out, hout⟩ := hout
        rw [exitScope_nil] at hout
        exact absurd hout (by simp)
      · obtain ⟨f, rest, hc, -⟩ := hex
        exact absurd hc (by simp)
  | cons f rest =>
      by_cases hh : f.handle = h
      · refine ⟨⟨fun _ => ⟨f, rest, rfl, hh⟩,
          fun _ => ⟨(f.rm.close, ⟨rest, nh⟩), by rw [exitScope_cons, if_pos hh]⟩⟩,
          fun g grest hc hgh => ?_, fun g grest hc hgh => ?_,
          fun hc => absurd hc (by simp)⟩
        · injection hc with h1 h2
          subst h1; subst h2
          rw [exitScope_cons, if_pos hgh]
        · injection hc with h1 h2
          subst h1
          exact absurd hh hgh
      · refine ⟨⟨fun hout => ?_, fun hex => ?_⟩,
          fun g grest hc hgh => ?_, fun g grest hc hgh => ?_,
          fun hc => absurd hc (by simp)⟩
        · obtain ⟨out, hout⟩ := hout
          rw [exitScope_cons, if_neg hh] at hout
          exact absurd hout (by simp)
        · obtain ⟨g, grest, hc, hgh⟩ := hex
          injection hc with h1 h2
          subst h1
          exact absurd hgh hh
        · injection hc with h1 h2
          subst h1
          exact absurd hgh hh
        · injection hc with h1 h2
          subst h1; subst h2
          rw [exitScope_cons, if_neg hgh]

/-- Witness for `C4_exit_strict_lifo`: on a stack with an inner scope
(handle 1) above an outer scope (handle 0), exiting the outer handle
raises `scopeNestingViolation`, and exiting the top handle succeeds. -/
theorem C4_witness :
    (⟨[⟨1, RegionManager.create 5 5⟩, ⟨0, RegionManager.create 7 7⟩], 2⟩ :
        ScopeStack).exitScope 0 = .error .scopeNestingViolation ∧
    (⟨[⟨1, RegionManager.create 5 5⟩, ⟨0, RegionManager.create 7 7⟩], 2⟩ :
        ScopeStack).exitScope 1 =
      .ok ((RegionManager.create 5 5).close,
           ⟨[⟨0, RegionManager.create 7 7⟩], 2⟩) :=
  ⟨(C4_exit_strict_lifo ⟨[⟨1, RegionManager.create 5 5⟩,
      ⟨0, RegionManager.create 7 7⟩], 2⟩ 0).2.2.1 _ _ rfl (by decide),
   (C4_exit_strict_lifo ⟨[⟨1, RegionManager.create 5 5⟩,
      ⟨0, RegionManager.create 7 7⟩], 2⟩ 1).2.1 _ _ rfl rfl⟩

/-- An empty work list performs no decrements and no steps. -/
theorem runWl_nil (fuel : Nat) (store : Nat → Option Instance) :
    runWl fuel store [] = (store, 0) := by
  cases fuel <;> rfl

/-- The reference-count hook never changes an instance's tag or ownership
edges, and never creates or removes store entries: only counts and
liveness change. -/
theorem runWl_preserves (fuel : Nat) :
    ∀ (store : Nat → Option Instance) (wl : List Nat) (k : Nat),
      ((runWl fuel store wl).fst k).map (fun i => (i.tag, i.fields)) =
        (store k).map (fun i => (i.tag, i.fields)) := by
  induction fuel with
  | zero => intro store wl k; rfl
  | succ fuel ih =>
      intro store wl k
      cases wl with
      | nil => rw [runWl_nil]
      | cons id rest =>
          simp only [runWl]
          cases hsid : store id with
          | none => exact ih store rest k
          | some inst =>
              by_cases hdead : inst.live = false ∨ inst.rc = 0
              · simp only [if_pos hdead]
                exact ih store rest k
              · simp only [if_neg hdead]
                by_cases hone : inst.rc = 1
                · simp only [if_pos hone]
                  cases htag : inst.tag with
                  | heap =>
                      rw [ih _ _ k]
                      by_cases hk : k = id
                      · subst hk; simp [updStore, hsid, htag]
                      · simp [updStore, hk]
                  | arena =>
                      rw [ih _ _ k]
                      by_cases hk : k = id
                      · subst hk; simp [updStore, hsid, htag]
                      · simp [updStore, hk]
                · simp only [if_neg hone]
                  rw [ih _ _ k]
                  by_cases hk : k = id
                  · subst hk; simp [updStore, hsid]
                  · simp [updStore, hk]

/-- Decrementing a live instance whose count is at least 2 performs a
plain decrement: one step, no teardown, no cascade. -/
theorem runWl_dec (fuel : Nat) (store : Nat → Option Instance) (id : Nat)
    (inst : Instance) (h : store id = some inst) (hlive : inst.live = true)
    (hrc : 2 ≤ inst.rc) :
    runWl (fuel + 1) store [id] =
      (updStore store id { inst with rc := inst.rc - 1 }, 1) := by
  have hdead : ¬ (inst.live = false ∨ inst.rc = 0) := by
    rintro (hf | hz)
    · rw [hlive] at hf; simp at hf
    · omega
  have hone : ¬ inst.rc = 1 := by omega
  simp only [runWl, h, if_neg hdead, if_neg hone, runWl_nil]

/-- Decrementing an arena-tagged instance from count 1 to 0, when none of
its edges points at a heap-tagged instance: its own storage is left
untouched (still live, count 0) and nothing further is decremented —
one step, independent of what the instance references. -/
theorem runWl_arena_zero (fuel : Nat) (store : Nat → Option Instance)
    (id : Nat) (fl : List Nat)
    (h : store id = some ⟨1, .arena, fl, true⟩)
    (hpushed : fl.filter (fun j => isHeapTagged store j) = []) :
    runWl (fuel + 1) store [id] =
      (updStore store id ⟨0, .arena, fl, true⟩, 1) := by
  have hdead : ¬ ((⟨1, .arena, fl, true⟩ : Instance).live = false ∨
      (⟨1, .arena, fl, true⟩ : Instance).rc = 0) := by
    rintro (hf | hz)
    · simp at hf
    · exact absurd hz (by simp)
  simp only [runWl, h, if_neg hdead, hpushed, List.nil_append, runWl_nil]
  simp

/-- Processing a duplicate-free work list of live instances whose counts
are all at least 2 decrements each exactly once, touches nothing else,
and takes exactly one step per work-list entry. -/
theorem runWl_each (wl : List Nat) :
    ∀ (fuel : Nat) (store : Nat → Option Instance), wl.length ≤ fuel →
      wl.Nodup →
      (∀ j ∈ wl, ∃ ij, store j = some ij ∧ ij.live = true ∧ 2 ≤ ij.rc) →
      (∀ k, k ∉ wl → (runWl fuel store wl).fst k = store k) ∧
      (∀ j ∈ wl, ∀ ij, store j = some ij →
         (runWl fuel store wl).fst j = some { ij with rc := ij.rc - 1 }) ∧
      (runWl fuel store wl).snd = wl.length := by
  induction wl with
  | nil =>
      intro fuel store _ _ _
      rw [runWl_nil]
      exact ⟨fun _ _ => rfl, fun j hj => absurd hj (by simp), rfl⟩
  | cons j wl ih =>
      intro fuel store hfuel hnodup hrefs
      obtain ⟨ij, hj, hlive, hrc⟩ := hrefs j (by simp)
      cases fuel with
      | zero => simp at hfuel
      | succ f =>
          have hdead : ¬ (ij.live = false ∨ ij.rc = 0) := by
            rintro (hf | hz)
            · rw [hlive] at hf; simp at hf
            · omega
          have hone : ¬ ij.rc = 1 := by omega
          have hstep : runWl (f + 1) store (j :: wl) =
              ((runWl f (updStore store j { ij with rc := ij.rc - 1 }) wl).fst,
               (runWl f (updStore store j { ij with rc := ij.rc - 1 }) wl).snd + 1) := by
            simp only [runWl, hj, if_neg hdead, if_neg hone]
          obtain ⟨hnj, hnodup2⟩ := List.nodup_cons.mp hnodup
          have hrefs2 : ∀ i ∈ wl,
              ∃ ii, (updStore store j { ij with rc := ij.rc - 1 }) i = some ii ∧
                ii.live = true ∧ 2 ≤ ii.rc := by
            intro i hi
            have hne : i ≠ j := fun he => hnj (he ▸ hi)
            obtain ⟨ii, hii, hl, hr⟩ := hrefs i (by simp [hi])
            exact ⟨ii, by rw [updStore, if_neg hne]; exact hii, hl, hr⟩
          have hflen : wl.length ≤ f := by
            simp only [List.length_cons] at hfuel; omega
          obtain ⟨hframe, hdec, hcount⟩ :=
            ih f (updStore store j { ij with rc := ij.rc - 1 }) hflen hnodup2 hrefs2
          refine ⟨?_, ?_, ?_⟩
          · intro k hk
            have hkj : k ≠ j := fun he => hk (by simp [he])
            have hkwl : k ∉ wl := fun hm => hk (by simp [hm])
            rw [hstep]
            show (runWl f _ wl).fst k = store k
            rw [hframe k hkwl, updStore, if_neg hkj]
          · intro i hi ii hii
            rcases List.mem_cons.mp hi with rfl | hiwl
            · rw [hj] at hii
              injection hii with hii
              subst hii
              rw [hstep]
              show (runWl f _ wl).fst i = _
              rw [hframe i hnj, updStore, if_pos rfl]
            · have hne : i ≠ j := fun he => hnj (he ▸ hiwl)
              rw [hstep]
              show (runWl f _ wl).fst i = _
              exact hdec i hiwl ii (by rw [updStore, if_neg hne]; exact hii)
          · rw [hstep]
            show (runWl f _ wl).snd + 1 = _
            rw [hcount]
            simp

/-- C7: when an arena-tagged instance's strong count drops to zero, the
teardown of its own storage is a no-op (the entry stays live, count 0,
deferred to the arena's bulk release), while every strong reference it
holds to a heap-tagged instance is decremented immediately; arena-tagged
referents and unrelated instances are untouched. -/
theorem C7_arena_drop_decrements_heap_refs
    (store : Nat → Option Instance) (id : Nat) (fl : List Nat) (fuel : Nat)
    (hid : store id = some ⟨1, .arena, fl, true⟩)
    (hnodup : fl.Nodup) (hnotself : id ∉ fl)
    (hrefs : ∀ j ∈ fl, ∃ ij, store j = some ij ∧ ij.live = true ∧ 2 ≤ ij.rc)
    (hfuel : fl.length + 1 ≤ fuel) :
    (runWl fuel store [id]).fst id = some ⟨0, .arena, fl, true⟩ ∧
    (∀ j ∈ fl, ∀ ij, store j = some ij → ij.tag = .heap →
       (runWl fuel store [id]).fst j = some { ij with rc := ij.rc - 1 }) ∧
    (∀ j ∈ fl, ∀ ij, store j = some ij → ij.tag = .arena →
       (runWl fuel store [id]).fst j = some ij) ∧
    (∀ k, k ≠ id → k ∉ fl → (runWl fuel store [id]).fst k = store k) := by
  cases fuel with
  | zero => omega
  | succ f =>
      have hdead : ¬ ((⟨1, .arena, fl, true⟩ : Instance).live = false ∨
          (⟨1, .arena, fl, true⟩ : Instance).rc = 0) := by
        rintro (hf | hz)
        · simp at hf
        · exact absurd hz (by simp)
      have hstep : runWl (f + 1) store [id] =
          ((runWl f (updStore store id ⟨0, .arena, fl, true⟩)
              (fl.filter fun j => isHeapTagged store j)).fst,
           (runWl f (updStore store id ⟨0, .arena, fl, true⟩)
              (fl.filter fun j => isHeapTagged store j)).snd + 1) := by
        simp only [runWl, hid, if_neg hdead, List.append_nil]
        simp
      have hsub : ∀ j ∈ fl.filter (fun j => isHeapTagged store j), j ∈ fl :=
        fun j hj => (List.mem_filter.mp hj).1
      have hlenf : (fl.filter fun j => isHeapTagged store j).length ≤ f := by
        have := List.length_filter_le (fun j => isHeapTagged store j) fl
        omega
      have hrefs2 : ∀ j ∈ fl.filter (fun j => isHeapTagged store j),
          ∃ ij, (updStore store id ⟨0, .arena, fl, true⟩) j = some ij ∧
            ij.live = true ∧ 2 ≤ ij.rc := by
        intro j hj
        have hmem := hsub j hj
        have hne : j ≠ id := fun he => hnotself (he ▸ hmem)
        obtain ⟨ij, hij, hl, hr⟩ := hrefs j hmem
        exact ⟨ij, by rw [updStore, if_neg hne]; exact hij, hl, hr⟩
      obtain ⟨hframe, hdec, -⟩ :=
        runWl_each (fl.filter fun j => isHeapTagged store j) f
          (updStore store id ⟨0, .arena, fl, true⟩) hlenf
          (hnodup.filter _) hrefs2
      refine ⟨?_, ?_, ?_, ?_⟩
      · rw [hstep]
        show (runWl f _ _).fst id = _
        rw [hframe id (fun hm => hnotself (hsub id hm)), updStore, if_pos rfl]
      · intro j hj ij hij htag
        have hne : j ≠ id := fun he => hnotself (he ▸ hj)
        have hmemf : j ∈ fl.filter (fun j => isHeapTagged store j) := by
          rw [List.mem_filter]
          exact ⟨hj, by simp [isHeapTagged, hij, htag]⟩
        rw [hstep]
        show (runWl f _ _).fst j = _
        exact hdec j hmemf ij (by rw [updStore, if_neg hne]; exact hij)
      · intro j hj ij hij htag
        have hne : j ≠ id := fun he => hnotself (he ▸ hj)
        have hmemf : j ∉ fl.filter (fun j => isHeapTagged store j) := by
          rw [List.mem_filter]
          rintro ⟨-, hh⟩
          simp [isHeapTagged, hij, htag] at hh
        rw [hstep]
        show (runWl f _ _).fst j = _
        rw [hframe j hmemf, updStore, if_neg hne]
        exact hij
      · intro k hkid hkfl
        have hmemf : k ∉ fl.filter (fun j => isHeapTagged store j) :=
          fun hm => hkfl (hsub k hm)
        rw [hstep]
        show (runWl f _ _).fst k = _
        rw [hframe k hmemf, updStore, if_neg hkid]

/-- The concrete store for the C7 witness: instance 0 is arena-tagged
with one external reference and edges to a heap-tagged instance 1 and an
arena-tagged instance 2, both with count 2. -/
def c7Store : Nat → Option Instance := fun k =>
  if k = 0 then some ⟨1, .arena, [1, 2], true⟩
  else if k = 1 then some ⟨2, .heap, [], true⟩
  else if k = 2 then some ⟨2, .arena, [], true⟩
  else none

/-- Witness for `C7_arena_drop_decrements_heap_refs` on `c7Store`:
dropping the last reference to arena instance 0 leaves its storage live,
decrements the heap-tagged referent 1 and leaves the arena-tagged
referent 2 untouched. -/
theorem C7_witness :
    (runWl 3 c7Store [0]).fst 0 = some ⟨0, .arena, [1, 2], true⟩ ∧
    (runWl 3 c7Store [0]).fst 1 = some ⟨1, .heap, [], true⟩ ∧
    (runWl 3 c7Store [0]).fst 2 = some ⟨2, .arena, [], true⟩ := by
  have hrefs : ∀ j ∈ [1, 2], ∃ ij, c7Store j = some ij ∧ ij.live = true ∧ 2 ≤ ij.rc := by
    intro j hj
    rcases List.mem_cons.mp hj with rfl | hj
    · exact ⟨⟨2, .heap, [], true⟩, rfl, rfl, by decide⟩
    · rcases List.mem_cons.mp hj with rfl | hj
      · exact ⟨⟨2, .arena, [], true⟩, rfl, rfl, by decide⟩
      · exact absurd hj (by simp)
  obtain ⟨h0, hheap, harena, -⟩ :=
    C7_arena_drop_decrements_heap_refs c7Store 0 [1, 2] 3 rfl (by decide)
      (by decide) hrefs (by decide)
  exact ⟨h0, hheap 1 (by decide) ⟨2, .heap, [], true⟩ rfl rfl,
    harena 2 (by decide) ⟨2, .arena, [], true⟩ rfl rfl⟩

theorem updStore_same (store : Nat → Option Instance) (id : Nat) (v : Instance) :
    updStore store id v id = some v := by
  simp [updStore]

theorem updStore_ne (store : Nat → Option Instance) (id : Nat) (v : Instance)
    (k : Nat) (h : k ≠ id) : updStore store id v k = store k := by
  simp [updStore, h]

/-- Bulk release performs exactly one step per owned chunk. -/
theorem releaseChunkSteps_eq_length (cs : List Chunk) :
    releaseChunkSteps cs = cs.length := by
  induction cs with
  | nil => rfl
  | cons c cs ih => simp [releaseChunkSteps, ih]

/-- Dropping the root of a heap-tagged chain of depth `N` cascades
through every node: `N + 1` teardown steps, every node released. -/
theorem runWl_heap_chain (N : Nat) :
    ∀ (b fuel : Nat) (store : Nat → Option Instance),
      (∀ j, j ≤ N → store (b + j) =
         some ⟨1, .heap, if j < N then [b + j + 1] else [], true⟩) →
      N + 1 ≤ fuel →
      (runWl fuel store [b]).snd = N + 1 ∧
      (∀ j, j ≤ N → (runWl fuel store [b]).fst (b + j) =
         some ⟨0, .heap, if j < N then [b + j + 1] else [], false⟩) ∧
      (∀ k, k < b ∨ b + N < k → (runWl fuel store [b]).fst k = store k) := by
  induction N with
  | zero =>
      intro b fuel store hch hfuel
      cases fuel with
      | zero => omega
      | succ f =>
          have hb : store b = some ⟨1, .heap, [], true⟩ := by
            have := hch 0 (Nat.le_refl 0)
            simpa using this
          have hstep : runWl (f + 1) store [b] =
              (updStore store b ⟨0, .heap, [], false⟩, 1) := by
            simp only [runWl, hb]
            simp [runWl_nil]
          refine ⟨by rw [hstep], ?_, ?_⟩
          · intro j hj
            obtain rfl : j = 0 := Nat.le_zero.mp hj
            rw [hstep]
            simp [updStore]
          · intro k hk
            rw [hstep]
            have hne : k ≠ b := by omega
            simp [updStore, hne]
  | succ N ih =>
      intro b fuel store hch hfuel
      cases fuel with
      | zero => omega
      | succ f =>
          have hb : store b = some ⟨1, .heap, [b + 1], true⟩ := by
            have := hch 0 (Nat.zero_le _)
            simpa using this
          have hstep : runWl (f + 1) store [b] =
              ((runWl f (updStore store b ⟨0, .heap, [b + 1], false⟩) [b + 1]).fst,
               (runWl f (updStore store b ⟨0, .heap, [b + 1], false⟩) [b + 1]).snd + 1) := by
            simp only [runWl, hb]
            simp
          have hch2 : ∀ j, j ≤ N →
              (updStore store b ⟨0, .heap, [b + 1], false⟩) (b + 1 + j) =
                some ⟨1, .heap, if j < N then [b + 1 + j + 1] else [], true⟩ := by
            intro j hj
            have hne : b + 1 + j ≠ b := by omega
            rw [updStore_ne _ _ _ _ hne]
            have heq : b + 1 + j = b + (j + 1) := by omega
            rw [heq, hch (j + 1) (by omega)]
            by_cases hjN : j < N
            · rw [if_pos (by omega : j + 1 < N + 1), if_pos hjN]
            · rw [if_neg (by omega : ¬ j + 1 < N + 1), if_neg hjN]
          obtain ⟨hcount, hrel, hframe⟩ :=
            ih (b + 1) f (updStore store b ⟨0, .heap, [b + 1], false⟩) hch2 (by omega)
          refine ⟨?_, ?_, ?_⟩
          · rw [hstep]
            show (runWl f _ [b + 1]).snd + 1 = N + 1 + 1
            rw [hcount]
          · intro j hj
            rw [hstep]
            cases j with
            | zero =>
                show (runWl f _ [b + 1]).fst (b + 0) = _
                have hfr := hframe b (Or.inl (by omega))
                have hb0 : b + 0 = b := by omega
                rw [hb0, hfr, updStore_same]
                simp
            | succ j =>
                have hj2 : j ≤ N := by omega
                have hthis := hrel j hj2
                have heq : b + 1 + j = b + (j + 1) := by omega
                rw [heq] at hthis
                show (runWl f _ [b + 1]).fst (b + (j + 1)) = _
                rw [hthis]
                by_cases hjN : j < N
                · rw [if_pos hjN, if_pos (by omega : j + 1 < N + 1)]
                · rw [if_neg hjN, if_neg (by omega : ¬ j + 1 < N + 1)]
          · intro k hk
            rw [hstep]
            show (runWl f _ [b + 1]).fst k = store k
            have hk2 : k < b + 1 ∨ b + 1 + N < k := by omega
            rw [hframe k hk2]
            have hne : k ≠ b := by omega
            rw [updStore_ne _ _ _ _ hne]

/-- Dropping the root of an arena-tagged chain takes one teardown step
regardless of the chain's depth: the root's own storage stays (bulk
release reclaims it) and its edge, pointing at an arena-tagged node, is
not decremented. -/
theorem runWl_arena_chain (N b fuel : Nat) (hfuel : 1 ≤ fuel) :
    (runWl fuel (chainStore b N .arena) [b]).snd = 1 := by
  cases fuel with
  | zero => omega
  | succ f =>
      have hroot : chainStore b N .arena b =
          some ⟨1, .arena, if b < b + N then [b + 1] else [], true⟩ := by
        simp [chainStore]
      have hfil : (if b < b + N then [b + 1] else ([] : List Nat)).filter
          (fun j => isHeapTagged (chainStore b N .arena) j) = [] := by
        by_cases hN : b < b + N
        · rw [if_pos hN]
          have hmem : chainStore b N .arena (b + 1) =
              some ⟨1, .arena, if b + 1 < b + N then [b + 2] else [], true⟩ := by
            simp only [chainStore]
            rw [if_pos (by omega : b ≤ b + 1 ∧ b + 1 ≤ b + N)]
          simp [isHeapTagged, hmem]
        · rw [if_neg hN]
          rfl
      rw [runWl_arena_zero f (chainStore b N .arena) b _ hroot hfil]

/-- The sum of `n` equal requests. -/
theorem replicate_sum (n s : Nat) : (List.replicate n s).sum = n * s := by
  induction n with
  | zero => simp
  | succ n ih =>
      rw [List.replicate_succ, List.sum_cons, ih]
      ring

/-- When every request of a sequence fits in the current single chunk,
the whole sequence is served from that chunk: the chunk list never
grows. -/
theorem allocAll_single_chunk (sizes : List Nat) :
    ∀ (rm : RegionManager) (c : Chunk), rm.isOpen = true →
      rm.used + sizes.sum ≤ rm.capacity → rm.chunks = [c] →
      c.cursor + sizes.sum ≤ c.size →
      ∃ rm', allocAll rm sizes = .ok rm' ∧
        rm'.chunks = [⟨c.size, c.cursor + sizes.sum⟩] := by
  induction sizes with
  | nil =>
      intro rm c hopen hcap hch hfit
      exact ⟨rm, rfl, by rw [hch]; simp⟩
  | cons s rest ih =>
      intro rm c hopen hcap hch hfit
      have hsum : (s :: rest).sum = s + rest.sum := by simp
      have hcapS : rm.used + s ≤ rm.capacity := by rw [hsum] at hcap; omega
      have hfitS : c.cursor + s ≤ c.size := by rw [hsum] at hfit; omega
      have hop := allocOp_ok rm s hopen hcapS
      have hpush : rm.pushBytes s =
          { rm with chunks := [⟨c.size, c.cursor + s⟩], used := rm.used + s } := by
        unfold RegionManager.pushBytes
        rw [hch]
        simp [hfitS]
      obtain ⟨hused, hopen2, hcap2, -⟩ := pushBytes_fields rm s
      obtain ⟨rm2, hall, hch2⟩ := ih (rm.pushBytes s) ⟨c.size, c.cursor + s⟩
        (by rw [hopen2, hopen])
        (by rw [hused, hcap2]; rw [hsum] at hcap; omega)
        (by rw [hpush])
        (by show c.cursor + s + rest.sum ≤ c.size; rw [hsum] at hfit; omega)
      refine ⟨rm2, ?_, ?_⟩
      · unfold allocAll
        rw [allocate_eq_ok rm (rm.pushBytes s) s hop]
        exact hall
      · rw [hch2]
        have : c.cursor + s + rest.sum = c.cursor + (s :: rest).sum := by
          rw [hsum]; omega
        rw [this]

/-- C5: bulk release is an operation over the chunk list only — its step
count is the chunk count, never the object count; dropping the root of
an arena-tagged chain of depth `N` performs one reference-count step
regardless of `N`; the arena that served the chain's `N + 1` allocations
keeps a single chunk, so its bulk release is at most one step; whereas
dropping the root of the same chain with heap-tagged instances performs
`N + 1` individual teardown steps — work that scales with `N`. -/
theorem C5_bulk_release_chunk_bounded (N fuel s C b : Nat)
    (hfuel : N + 1 ≤ fuel) :
    (∀ rm : RegionManager, rm.closeSteps = rm.chunks.length) ∧
    (runWl fuel (chainStore b N .arena) [b]).snd = 1 ∧
    ((N + 1) * s ≤ C →
       ∀ rm', allocAll (RegionManager.create C ((N + 1) * s))
           (List.replicate (N + 1) s) = .ok rm' → rm'.closeSteps ≤ 1) ∧
    (runWl fuel (chainStore b N .heap) [b]).snd = N + 1 := by
  refine ⟨?_, ?_, ?_, ?_⟩
  · intro rm
    exact releaseChunkSteps_eq_length rm.chunks
  · exact runWl_arena_chain N b fuel (by omega)
  · intro hC rm' hall
    have hrep : List.replicate (N + 1) s = s :: List.replicate N s := by
      rw [List.replicate_succ]
    have hcapS : (RegionManager.create C ((N + 1) * s)).used + s ≤
        (RegionManager.create C ((N + 1) * s)).capacity := by
      show 0 + s ≤ C
      have : s ≤ (N + 1) * s := Nat.le_mul_of_pos_left s (by omega)
      omega
    have hop := allocOp_ok (RegionManager.create C ((N + 1) * s)) s rfl hcapS
    have hpush : (RegionManager.create C ((N + 1) * s)).pushBytes s =
        { RegionManager.create C ((N + 1) * s) with
          chunks := [⟨max ((N + 1) * s) s, s⟩], used := 0 + s } := by
      unfold RegionManager.pushBytes RegionManager.create
      simp
    obtain ⟨hused, hopen2, hcap2, -⟩ :=
      pushBytes_fields (RegionManager.create C ((N + 1) * s)) s
    have hmax : max ((N + 1) * s) s = (N + 1) * s := by
      have : s ≤ (N + 1) * s := Nat.le_mul_of_pos_left s (by omega)
      omega
    obtain ⟨rm2, hall2, hch2⟩ :=
      allocAll_single_chunk (List.replicate N s)
        ((RegionManager.create C ((N + 1) * s)).pushBytes s)
        ⟨max ((N + 1) * s) s, s⟩
        (by rw [hopen2]; rfl)
        (by
          rw [hused, hcap2, replicate_sum]
          show 0 + s + N * s ≤ C
          have : s + N * s = (N + 1) * s := by ring
          omega)
        (by rw [hpush])
        (by
          show s + (List.replicate N s).sum ≤ max ((N + 1) * s) s
          rw [replicate_sum, hmax]
          have : s + N * s = (N + 1) * s := by ring
          omega)
    have hallEq : allocAll (RegionManager.create C ((N + 1) * s))
        (List.replicate (N + 1) s) = .ok rm2 := by
      rw [hrep]
      unfold allocAll
      rw [allocate_eq_ok _ _ s hop]
      exact hall2
    rw [hallEq] at hall
    injection hall with hall
    subst hall
    rw [RegionManager.closeSteps, releaseChunkSteps_eq_length, hch2]
    simp
  · exact (runWl_heap_chain N b fuel (chainStore b N .heap)
      (by
        intro j hj
        simp only [chainStore]
        rw [if_pos (by omega : b ≤ b + j ∧ b + j ≤ b + N)]
        by_cases hjN : j < N
        · rw [if_pos (by omega : b + j < b + N), if_pos hjN]
        · rw [if_neg (by omega : ¬ b + j < b + N), if_neg hjN])
      hfuel).1

/-- Witness for `C5_bulk_release_chunk_bounded`: a chain of depth 2
rooted at id 5 — dropping the arena root is one step, dropping the heap
root is three steps. -/
theorem C5_witness :
    (runWl 3 (chainStore 5 2 .arena) [5]).snd = 1 ∧
    (runWl 3 (chainStore 5 2 .heap) [5]).snd = 2 + 1 ∧
    (RegionManager.create 9 9).closeSteps = (RegionManager.create 9 9).chunks.length :=
  ⟨(C5_bulk_release_chunk_bounded 2 3 0 0 5 (by decide)).2.1,
   (C5_bulk_release_chunk_bounded 2 3 0 0 5 (by decide)).2.2.2,
   (C5_bulk_release_chunk_bounded 2 3 0 0 5 (by decide)).1 (RegionManager.create 9 9)⟩

/-- The reference-count hook never removes store entries. -/
theorem runWl_none (fuel : Nat) (store : Nat → Option Instance)
    (wl : List Nat) (k : Nat) (h : store k = none) :
    (runWl fuel store wl).fst k = none := by
  have hp := runWl_preserves fuel store wl k
  rw [h] at hp
  exact Option.map_eq_none'.mp hp

/-- The reference-count hook preserves every present instance's tag. -/
theorem runWl_tag (fuel : Nat) (store : Nat → Option Instance)
    (wl : List Nat) (id : Nat) (inst : Instance) (h : store id = some inst) :
    ∃ inst', (runWl fuel store wl).fst id = some inst' ∧
      inst'.tag = inst.tag := by
  have hp := runWl_preserves fuel store wl id
  rw [h] at hp
  cases hr : (runWl fuel store wl).fst id with
  | none => rw [hr] at hp; simp at hp
  | some i =>
      rw [hr] at hp
      simp only [Option.map_some'] at hp
      injection hp with hp
      exact ⟨i, rfl, congrArg Prod.fst hp⟩

theorem tagPres_refl (a : Nat → Option Instance) : TagPres a a :=
  fun _ inst h => ⟨inst, h, rfl⟩

theorem tagPres_trans {a b c : Nat → Option Instance}
    (h1 : TagPres a b) (h2 : TagPres b c) : TagPres a c := by
  intro id inst h
  obtain ⟨i1, hb, ht1⟩ := h1 id inst h
  obtain ⟨i2, hc, ht2⟩ := h2 id i1 hb
  exact ⟨i2, hc, ht2.trans ht1⟩

theorem tagPres_updNew (store : Nat → Option Instance) (nid : Nat)
    (v : Instance) (h : store nid = none) :
    TagPres store (updStore store nid v) := by
  intro id inst hid
  have hne : id ≠ nid := fun he => by rw [he, h] at hid; exact Option.noConfusion hid
  exact ⟨inst, by rw [updStore_ne _ _ _ _ hne]; exact hid, rfl⟩

theorem tagPres_updSame (store : Nat → Option Instance) (k : Nat)
    (i i' : Instance) (hk : store k = some i) (ht : i'.tag = i.tag) :
    TagPres store (updStore store k i') := by
  intro id inst hid
  by_cases he : id = k
  · subst he
    rw [hk] at hid
    injection hid with hid
    subst hid
    exact ⟨i', updStore_same _ _ _, ht⟩
  · exact ⟨inst, by rw [updStore_ne _ _ _ _ he]; exact hid, rfl⟩

theorem tagPres_incRef (store : Nat → Option Instance) (k : Nat) :
    TagPres store (incRefAt store k) := by
  cases hk : store k with
  | none => simp only [incRefAt, hk]; exact tagPres_refl store
  | some i => simp only [incRefAt, hk]; exact tagPres_updSame store k i _ hk rfl

theorem tagPres_runWl (fuel : Nat) (store : Nat → Option Instance)
    (wl : List Nat) : TagPres store (runWl fuel store wl).fst :=
  fun id inst h => runWl_tag fuel store wl id inst h

theorem tagPres_cascade (st : PState) (id : Nat) :
    TagPres st.store (st.decRefCascade id).store :=
  tagPres_runWl _ st.store [id]

/-- `incRefAt` touches only the incremented id. -/
theorem incRefAt_ne (store : Nat → Option Instance) (k id : Nat)
    (h : id ≠ k) : incRefAt store k id = store id := by
  cases hk : store k with
  | none => simp only [incRefAt, hk]
  | some i => simp only [incRefAt, hk]; exact updStore_ne _ _ _ _ h

theorem incRefAt_some (store : Nat → Option Instance) (id : Nat)
    (i : Instance) (h : store id = some i) :
    incRefAt store id = updStore store id { i with rc := i.rc + 1 } := by
  simp only [incRefAt, h]

theorem tagPres_bindNew (st : PState) (v : Var) (tag : Tag)
    (hfr : st.store st.nextId = none) :
    TagPres st.store (st.bindNew v tag).store := by
  have h1 : TagPres st.store (updStore st.store st.nextId ⟨1, tag, [], true⟩) :=
    tagPres_updNew _ _ _ hfr
  cases henv : st.env v with
  | none => simp only [PState.bindNew, henv]; exact h1
  | some old =>
      simp only [PState.bindNew, henv]
      exact tagPres_trans h1 (tagPres_cascade
        { st with
          store := updStore st.store st.nextId ⟨1, tag, [], true⟩,
          nextId := st.nextId + 1,
          env := fun w => if w = v then some st.nextId else st.env w } old)

theorem tagPres_bindNew2 (st : PState) (v w : Var) (tag : Tag)
    (hfr : st.store st.nextId = none) :
    TagPres st.store (st.bindNew2 v w tag).store := by
  have h1 : TagPres st.store (updStore st.store st.nextId ⟨2, tag, [], true⟩) :=
    tagPres_updNew _ _ _ hfr
  cases henv : st.env v with
  | none =>
      cases henw : st.env w with
      | none => simp only [PState.bindNew2, henv, henw]; exact h1
      | some oldw =>
          simp only [PState.bindNew2, henv, henw]
          exact tagPres_trans h1 (tagPres_cascade
            { st with
              store := updStore st.store st.nextId ⟨2, tag, [], true⟩,
              nextId := st.nextId + 1,
              env := fun u => if u = v ∨ u = w then some st.nextId else st.env u } oldw)
  | some oldv =>
      cases henw : st.env w with
      | none =>
          simp only [PState.bindNew2, henv, henw]
          exact tagPres_trans h1 (tagPres_cascade
            { st with
              store := updStore st.store st.nextId ⟨2, tag, [], true⟩,
              nextId := st.nextId + 1,
              env := fun u => if u = v ∨ u = w then some st.nextId else st.env u } oldv)
      | some oldw =>
          simp only [PState.bindNew2, henv, henw]
          exact tagPres_trans h1
            (tagPres_trans
              (tagPres_cascade
                { st with
                  store := updStore st.store st.nextId ⟨2, tag, [], true⟩,
                  nextId := st.nextId + 1,
                  env := fun u => if u = v ∨ u = w then some st.nextId else st.env u } oldv)
              (tagPres_cascade
                (PState.decRefCascade
                  { st with
                    store := updStore st.store st.nextId ⟨2, tag, [], true⟩,
                    nextId := st.nextId + 1,
                    env := fun u => if u = v ∨ u = w then some st.nextId else st.env u } oldv) oldw))

/-- A single client operation never changes the tag of an instance that
already exists: the routing decision is not revisited. -/
theorem stepOp_tagPres (s : Nat) (st : PState) (op : Op) (st' : PState)
    (hfresh : ∀ id, st.nextId ≤ id → st.store id = none)
    (h : stepOp s st op = .ok st') : TagPres st.store st'.store := by
  have hfr : st.store st.nextId = none := hfresh _ (Nat.le_refl _)
  cases op with
  | enterArena cap =>
      simp only [stepOp] at h
      injection h with h
      subst h
      exact tagPres_refl _
  | exitArena =>
      simp only [stepOp] at h
      cases hw : st.withHandles with
      | nil => simp only [hw] at h; exact Except.noConfusion h
      | cons hh hs =>
          simp only [hw] at h
          cases hex : st.scopes.exitScope hh with
          | ok out => simp only [hex] at h; injection h with h; subst h; exact tagPres_refl _
          | error e => simp only [hex] at h; exact Except.noConfusion h
  | constructBind v =>
      simp only [stepOp] at h
      cases hf : st.scopes.frames with
      | nil =>
          simp only [hf] at h
          injection h with h
          subst h
          exact tagPres_bindNew st v .heap hfr
      | cons f rest =>
          simp only [hf] at h
          cases hall : f.rm.allocOp s with
          | mk res rm2 =>
              cases res with
              | ok u =>
                  simp only [hall] at h
                  injection h with h
                  subst h
                  exact tagPres_bindNew
                    { st with scopes := ⟨⟨f.handle, rm2⟩ :: rest, st.scopes.nextHandle⟩ }
                    v .arena hfr
              | error e => simp only [hall] at h; exact Except.noConfusion h
  | constructBind2 v w =>
      simp only [stepOp] at h
      cases hf : st.scopes.frames with
      | nil =>
          simp only [hf] at h
          injection h with h
          subst h
          exact tagPres_bindNew2 st v w .heap hfr
      | cons f rest =>
          simp only [hf] at h
          cases hall : f.rm.allocOp s with
          | mk res rm2 =>
              cases res with
              | ok u =>
                  simp only [hall] at h
                  injection h with h
                  subst h
                  exact tagPres_bindNew2
                    { st with scopes := ⟨⟨f.handle, rm2⟩ :: rest, st.scopes.nextHandle⟩ }
                    v w .arena hfr
              | error e => simp only [hall] at h; exact Except.noConfusion h
  | setFieldA o v =>
      simp only [stepOp] at h
      cases he1 : st.env o with
      | none => simp only [he1] at h; exact Except.noConfusion h
      | some oid =>
          cases he2 : st.env v with
          | none => simp only [he1, he2] at h; exact Except.noConfusion h
          | some vid =>
              simp only [he1, he2] at h
              cases hoin : st.store oid with
              | none => simp only [hoin] at h; exact Except.noConfusion h
              | some oin =>
                  simp only [hoin] at h
                  injection h with h
                  subst h
                  exact tagPres_trans
                    (tagPres_updSame st.store oid oin
                      { oin with fields := oin.fields ++ [vid] } hoin rfl)
                    (tagPres_incRef
                      (updStore st.store oid
                        { oin with fields := oin.fields ++ [vid] }) vid)
  | bindCopy v w =>
      simp only [stepOp] at h
      cases he1 : st.env w with
      | none => simp only [he1] at h; exact Except.noConfusion h
      | some wid =>
          simp only [he1] at h
          cases he2 : st.env v with
          | none =>
              simp only [he2] at h
              injection h with h
              subst h
              exact tagPres_incRef st.store wid
          | some old =>
              simp only [he2] at h
              injection h with h
              subst h
              exact tagPres_trans (tagPres_incRef st.store wid)
                (tagPres_cascade
                  { st with
                    store := incRefAt st.store wid,
                    env := fun u => if u = v then some wid else st.env u } old)
  | del v =>
      simp only [stepOp] at h
      cases he : st.env v with
      | none => simp only [he] at h; exact Except.noConfusion h
      | some id =>
          simp only [he] at h
          injection h with h
          subst h
          exact tagPres_cascade
            { st with env := fun u => if u = v then none else st.env u } id
  | timeProbe =>
      simp only [stepOp] at h
      injection h with h
      subst h
      exact tagPres_refl _

theorem cascade_WF (st : PState) (id : Nat) (hwf : WFState st) :
    WFState (st.decRefCascade id) := by
  obtain ⟨hfresh, henvb⟩ := hwf
  exact ⟨fun k hk => runWl_none _ _ _ k (hfresh k hk), henvb⟩

theorem bindNew_WF (st : PState) (v : Var) (tag : Tag) (hwf : WFState st) :
    WFState (st.bindNew v tag) := by
  obtain ⟨hfresh, henvb⟩ := hwf
  have h1 : WFState
      { st with
        store := updStore st.store st.nextId ⟨1, tag, [], true⟩,
        nextId := st.nextId + 1,
        env := fun w => if w = v then some st.nextId else st.env w } := by
    constructor
    · intro id hid
      show updStore _ _ _ id = none
      rw [updStore_ne _ _ _ _ (by simp at hid; omega : id ≠ st.nextId)]
      exact hfresh id (by simp at hid; omega)
    · intro w i hwi
      show i < st.nextId + 1
      have hwi2 : (if w = v then some st.nextId else st.env w) = some i := hwi
      by_cases hw : w = v
      · rw [if_pos hw] at hwi2
        injection hwi2 with hwi2
        omega
      · rw [if_neg hw] at hwi2
        have := henvb w i hwi2
        omega
  cases henv : st.env v with
  | none => simp only [PState.bindNew, henv]; exact h1
  | some old => simp only [PState.bindNew, henv]; exact cascade_WF _ old h1

theorem bindNew2_WF (st : PState) (v w : Var) (tag : Tag) (hwf : WFState st) :
    WFState (st.bindNew2 v w tag) := by
  obtain ⟨hfresh, henvb⟩ := hwf
  have h1 : WFState
      { st with
        store := updStore st.store st.nextId ⟨2, tag, [], true⟩,
        nextId := st.nextId + 1,
        env := fun u => if u = v ∨ u = w then some st.nextId else st.env u } := by
    constructor
    · intro id hid
      show updStore _ _ _ id = none
      rw [updStore_ne _ _ _ _ (by simp at hid; omega : id ≠ st.nextId)]
      exact hfresh id (by simp at hid; omega)
    · intro u i hui
      show i < st.nextId + 1
      have hui2 : (if u = v ∨ u = w then some st.nextId else st.env u) = some i := hui
      by_cases hu : u = v ∨ u = w
      · rw [if_pos hu] at hui2
        injection hui2 with hui2
        omega
      · rw [if_neg hu] at hui2
        have := henvb u i hui2
        omega
  cases henv : st.env v with
  | none =>
      cases henw : st.env w with
      | none => simp only [PState.bindNew2, henv, henw]; exact h1
      | some oldw =>
          simp only [PState.bindNew2, henv, henw]
          exact cascade_WF _ oldw h1
  | some oldv =>
      cases henw : st.env w with
      | none =>
          simp only [PState.bindNew2, henv, henw]
          exact cascade_WF _ oldv h1
      | some oldw =>
          simp only [PState.bindNew2, henv, henw]
          exact cascade_WF _ oldw (cascade_WF _ oldv h1)

/-- A single client operation preserves state well-formedness. -/
theorem stepOp_WF (s : Nat) (st : PState) (op : Op) (st' : PState)
    (hwf : WFState st) (h : stepOp s st op = .ok st') : WFState st' := by
  obtain ⟨hfresh, henvb⟩ := hwf
  cases op with
  | enterArena cap =>
      simp only [stepOp] at h
      injection h with h
      subst h
      exact ⟨hfresh, henvb⟩
  | exitArena =>
      simp only [stepOp] at h
      cases hw : st.withHandles with
      | nil => simp only [hw] at h; exact Except.noConfusion h
      | cons hh hs =>
          simp only [hw] at h
          cases hex : st.scopes.exitScope hh with
          | ok out => simp only [hex] at h; injection h with h; subst h; exact ⟨hfresh, henvb⟩
          | error e => simp only [hex] at h; exact Except.noConfusion h
  | constructBind v =>
      simp only [stepOp] at h
      cases hf : st.scopes.frames with
      | nil =>
          simp only [hf] at h
          injection h with h
          subst h
          exact bindNew_WF st v .heap ⟨hfresh, henvb⟩
      | cons f rest =>
          simp only [hf] at h
          cases hall : f.rm.allocOp s with
          | mk res rm2 =>
              cases res with
              | ok u =>
                  simp only [hall] at h
                  injection h with h
                  subst h
                  exact bindNew_WF _ v .arena ⟨hfresh, henvb⟩
              | error e => simp only [hall] at h; exact Except.noConfusion h
  | constructBind2 v w =>
      simp only [stepOp] at h
      cases hf : st.scopes.frames with
      | nil =>
          simp only [hf] at h
          injection h with h
          subst h
          exact bindNew2_WF st v w .heap ⟨hfresh, henvb⟩
      | cons f rest =>
          simp only [hf] at h
          cases hall : f.rm.allocOp s with
          | mk res rm2 =>
              cases res with
              | ok u =>
                  simp only [hall] at h
                  injection h with h
                  subst h
                  exact bindNew2_WF _ v w .arena ⟨hfresh, henvb⟩
              | error e => simp only [hall] at h; exact Except.noConfusion h
  | setFieldA o v =>
      simp only [stepOp] at h
      cases he1 : st.env o with
      | none => simp only [he1] at h; exact Except.noConfusion h
      | some oid =>
          cases he2 : st.env v with
          | none => simp only [he1, he2] at h; exact Except.noConfusion h
          | some vid =>
              simp only [he1, he2] at h
              cases hoin : st.store oid with
              | none => simp only [hoin] at h; exact Except.noConfusion h
              | some oin =>
                  simp only [hoin] at h
                  injection h with h
                  subst h
                  refine ⟨?_, henvb⟩
                  intro id hid
                  have hid2 : st.nextId ≤ id := hid
                  show incRefAt _ vid id = none
                  have hvid := henvb v vid he2
                  have hoid := henvb o oid he1
                  rw [incRefAt_ne _ _ _ (by omega : id ≠ vid),
                      updStore_ne _ _ _ _ (by omega : id ≠ oid)]
                  exact hfresh id hid2
  | bindCopy v w =>
      simp only [stepOp] at h
      cases he1 : st.env w with
      | none => simp only [he1] at h; exact Except.noConfusion h
      | some wid =>
          simp only [he1] at h
          have hwid := henvb w wid he1
          have hWF1 : WFState
              { st with
                store := incRefAt st.store wid,
                env := fun u => if u = v then some wid else st.env u } := by
            constructor
            · intro id hid
              have hid2 : st.nextId ≤ id := hid
              show incRefAt _ wid id = none
              rw [incRefAt_ne _ _ _ (by omega : id ≠ wid)]
              exact hfresh id hid2
            · intro u i hui
              show i < st.nextId
              have hui2 : (if u = v then some wid else st.env u) = some i := hui
              by_cases hu : u = v
              · rw [if_pos hu] at hui2
                injection hui2 with hui2
                omega
              · rw [if_neg hu] at hui2
                exact henvb u i hui2
          cases he2 : st.env v with
          | none => simp only [he2] at h; injection h with h; subst h; exact hWF1
          | some old =>
              simp only [he2] at h
              injection h with h
              subst h
              exact cascade_WF _ old hWF1
  | del v =>
      simp only [stepOp] at h
      cases he : st.env v with
      | none => simp only [he] at h; exact Except.noConfusion h
      | some id =>
          simp only [he] at h
          injection h with h
          subst h
          refine cascade_WF _ id ⟨hfresh, ?_⟩
          intro u i hui
          show i < st.nextId
          have hui2 : (if u = v then none else st.env u) = some i := hui
          by_cases hu : u = v
          · rw [if_pos hu] at hui2
            exact Option.noConfusion hui2
          · rw [if_neg hu] at hui2
            exact henvb u i hui2
  | timeProbe =>
      simp only [stepOp] at h
      injection h with h
      subst h
      exact ⟨hfresh, henvb⟩

/-- Well-formedness is preserved along any run. -/
theorem runOps_WF (ops : List Op) :
    ∀ (s : Nat) (st st' : PState), WFState st →
      runOps s st ops = .ok st' → WFState st' := by
  induction ops with
  | nil =>
      intro s st st' hwf h
      simp only [runOps] at h
      injection h with h
      subst h
      exact hwf
  | cons op rest ih =>
      intro s st st' hwf h
      simp only [runOps] at h
      cases hstep : stepOp s st op with
      | ok st1 =>
          simp only [hstep] at h
          exact ih s st1 st' (stepOp_WF s st op st1 hwf hstep) h
      | error e => simp only [hstep] at h; exact Except.noConfusion h

/-- Tags are preserved along any run from a well-formed state. -/
theorem runOps_tagPres (ops : List Op) :
    ∀ (s : Nat) (st st' : PState), WFState st →
      runOps s st ops = .ok st' → TagPres st.store st'.store := by
  induction ops with
  | nil =>
      intro s st st' _ h
      simp only [runOps] at h
      injection h with h
      subst h
      exact tagPres_refl _
  | cons op rest ih =>
      intro s st st' hwf h
      simp only [runOps] at h
      cases hstep : stepOp s st op with
      | ok st1 =>
          simp only [hstep] at h
          exact tagPres_trans
            (stepOp_tagPres s st op st1 hwf.1 hstep)
            (ih s st1 st' (stepOp_WF s st op st1 hwf hstep) h)
      | error e => simp only [hstep] at h; exact Except.noConfusion h

/-- A fresh construction is present with the routed tag. -/
theorem bindNew_gives (st : PState) (v : Var) (tag : Tag) :
    ∃ inst', (st.bindNew v tag).store st.nextId = some inst' ∧
      inst'.tag = tag := by
  cases henv : st.env v with
  | none =>
      simp only [PState.bindNew, henv]
      exact ⟨_, updStore_same _ _ _, rfl⟩
  | some old =>
      simp only [PState.bindNew, henv, PState.decRefCascade]
      obtain ⟨i', hi', ht⟩ := runWl_tag _ _ [old] st.nextId ⟨1, tag, [], true⟩
        (updStore_same _ _ _)
      exact ⟨i', hi', ht⟩

theorem bindNew2_gives (st : PState) (v w : Var) (tag : Tag) :
    ∃ inst', (st.bindNew2 v w tag).store st.nextId = some inst' ∧
      inst'.tag = tag := by
  cases henv : st.env v with
  | none =>
      cases henw : st.env w with
      | none =>
          simp only [PState.bindNew2, henv, henw]
          exact ⟨_, updStore_same _ _ _, rfl⟩
      | some oldw =>
          simp only [PState.bindNew2, henv, henw, PState.decRefCascade]
          obtain ⟨i', hi', ht⟩ := runWl_tag _ _ [oldw] st.nextId ⟨2, tag, [], true⟩
            (updStore_same _ _ _)
          exact ⟨i', hi', ht⟩
  | some oldv =>
      cases henw : st.env w with
      | none =>
          simp only [PState.bindNew2, henv, henw, PState.decRefCascade]
          obtain ⟨i', hi', ht⟩ := runWl_tag _ _ [oldv] st.nextId ⟨2, tag, [], true⟩
            (updStore_same _ _ _)
          exact ⟨i', hi', ht⟩
      | some oldw =>
          simp only [PState.bindNew2, henv, henw, PState.decRefCascade]
          obtain ⟨i1, hi1, ht1⟩ := runWl_tag _ _ [oldv] st.nextId ⟨2, tag, [], true⟩
            (updStore_same _ _ _)
          obtain ⟨i2, hi2, ht2⟩ := runWl_tag _ _ [oldw] st.nextId i1 hi1
          exact ⟨i2, hi2, ht2.trans ht1⟩

/-- C6: the heap-vs-arena routing decision is made exactly once, at
construction — the instance is tagged `arena` exactly when the scope
stack is non-empty — and no later operation of any run (field mutation,
reference-count change, scope entry or exit) ever changes an existing
instance's tag. -/
theorem C6_tag_immutable (s : Nat) (st : PState) (hwf : WFState st) :
    (∀ (ops : List Op) (st' : PState), runOps s st ops = .ok st' →
       ∀ id inst, st.store id = some inst →
         ∃ inst', st'.store id = some inst' ∧ inst'.tag = inst.tag) ∧
    (∀ (v : Var) (st' : PState), stepOp s st (.constructBind v) = .ok st' →
       ∃ inst', st'.store st.nextId = some inst' ∧
         inst'.tag = (if st.scopes.frames = [] then Tag.heap else Tag.arena)) ∧
    (∀ (v w : Var) (st' : PState), stepOp s st (.constructBind2 v w) = .ok st' →
       ∃ inst', st'.store st.nextId = some inst' ∧
         inst'.tag = (if st.scopes.frames = [] then Tag.heap else Tag.arena)) := by
  refine ⟨?_, ?_, ?_⟩
  · intro ops st' hrun id inst hid
    exact runOps_tagPres ops s st st' hwf hrun id inst hid
  · intro v st' h
    cases hf : st.scopes.frames with
    | nil =>
        simp only [stepOp, hf] at h
        injection h with h
        subst h
        rw [if_pos rfl]
        exact bindNew_gives st v .heap
    | cons f rest =>
        simp only [stepOp, hf] at h
        cases hall : f.rm.allocOp s with
        | mk res rm2 =>
            cases res with
            | ok u =>
                simp only [hall] at h
                injection h with h
                subst h
                rw [if_neg (by exact fun hc => List.noConfusion hc : ¬ f :: rest = [])]
                exact bindNew_gives _ v .arena
            | error e => simp only [hall] at h; exact Except.noConfusion h
  · intro v w st' h
    cases hf : st.scopes.frames with
    | nil =>
        simp only [stepOp, hf] at h
        injection h with h
        subst h
        rw [if_pos rfl]
        exact bindNew2_gives st v w .heap
    | cons f rest =>
        simp only [stepOp, hf] at h
        cases hall : f.rm.allocOp s with
        | mk res rm2 =>
            cases res with
            | ok u =>
                simp only [hall] at h
                injection h with h
                subst h
                rw [if_neg (by exact fun hc => List.noConfusion hc : ¬ f :: rest = [])]
                exact bindNew2_gives _ v w .arena
            | error e => simp only [hall] at h; exact Except.noConfusion h

/-- Witness for `C6_tag_immutable`: from the initial state (empty scope
stack), a construction is routed to the heap. -/
theorem C6_witness :
    WFState initState ∧
    ∃ inst', (initState.bindNew .vroot Tag.heap).store initState.nextId =
        some inst' ∧
      inst'.tag = (if initState.scopes.frames = [] then Tag.heap else Tag.arena) := by
  have hwf : WFState initState :=
    ⟨fun _ _ => rfl, fun _ _ h => Option.noConfusion h⟩
  exact ⟨hwf, (C6_tag_immutable 8 initState hwf).2.1 .vroot
    (initState.bindNew .vroot Tag.heap) rfl⟩

/-- A cascade on a live instance with count at least 2 is a single
decrement. -/
theorem cascade_dec (st : PState) (id : Nat) (inst : Instance)
    (h : st.store id = some inst) (hlive : inst.live = true)
    (hrc : 2 ≤ inst.rc) :
    st.decRefCascade id =
      { st with store := updStore st.store id { inst with rc := inst.rc - 1 } } := by
  unfold PState.decRefCascade
  rw [runWl_dec _ _ _ _ h hlive hrc]

/-- A cascade dropping an arena instance to count 0, all of whose edges
are arena-tagged, only zeroes that count. -/
theorem cascade_zero (st : PState) (id : Nat) (fl : List Nat)
    (h : st.store id = some ⟨1, .arena, fl, true⟩)
    (hp : fl.filter (fun j => isHeapTagged st.store j) = []) :
    st.decRefCascade id =
      { st with store := updStore st.store id ⟨0, .arena, fl, true⟩ } := by
  unfold PState.decRefCascade
  rw [runWl_arena_zero _ _ _ _ h hp]

theorem step_enter (s : Nat) (st : PState) (cap : Nat) :
    stepOp s st (.enterArena cap) = .ok
      { st with
        scopes := ⟨⟨st.scopes.nextHandle, RegionManager.create cap cap⟩ ::
          st.scopes.frames, st.scopes.nextHandle + 1⟩,
        withHandles := st.scopes.nextHandle :: st.withHandles } := rfl

theorem exitScope_top (st : ScopeStack) (f : Frame) (rest : List Frame)
    (h : Nat) (hfr : st.frames = f :: rest) (hh : f.handle = h) :
    st.exitScope h = .ok (f.rm.close, ⟨rest, st.nextHandle⟩) := by
  cases st with
  | mk frames nh =>
      simp only at hfr
      subst hfr
      rw [exitScope_cons, if_pos hh]

theorem step_exit (s : Nat) (st : PState) (h : Nat) (hs : List Nat)
    (f : Frame) (rest : List Frame) (hwh : st.withHandles = h :: hs)
    (hfr : st.scopes.frames = f :: rest) (hh : f.handle = h) :
    stepOp s st .exitArena = .ok
      { st with scopes := ⟨rest, st.scopes.nextHandle⟩, withHandles := hs } := by
  simp only [stepOp, hwh, exitScope_top st.scopes f rest h hfr hh]

theorem step_del (s : Nat) (st : PState) (v : Var) (id : Nat)
    (h : st.env v = some id) :
    stepOp s st (.del v) = .ok (PState.decRefCascade
      { st with env := fun u => if u = v then none else st.env u } id) := by
  simp only [stepOp, h]

theorem step_bindCopy (s : Nat) (st : PState) (v w : Var) (wid old : Nat)
    (hw : st.env w = some wid) (hv : st.env v = some old) :
    stepOp s st (.bindCopy v w) = .ok (PState.decRefCascade
      { st with
        store := incRefAt st.store wid,
        env := fun u => if u = v then some wid else st.env u } old) := by
  simp only [stepOp, hw, hv]

theorem step_setFieldA (s : Nat) (st : PState) (o v : Var) (oid vid : Nat)
    (oin : Instance) (ho : st.env o = some oid) (hv : st.env v = some vid)
    (hoin : st.store oid = some oin) :
    stepOp s st (.setFieldA o v) = .ok
      { st with
        store := incRefAt (updStore st.store oid
          { oin with fields := oin.fields ++ [vid] }) vid } := by
  simp only [stepOp, ho, hv, hoin]

theorem step_construct_arena (s : Nat) (st : PState) (v : Var) (f : Frame)
    (rest : List Frame) (hf : st.scopes.frames = f :: rest)
    (hopen : f.rm.isOpen = true) (hcap : f.rm.used + s ≤ f.rm.capacity) :
    stepOp s st (.constructBind v) = .ok (PState.bindNew
      { st with scopes := ⟨⟨f.handle, f.rm.pushBytes s⟩ :: rest,
        st.scopes.nextHandle⟩ } v .arena) := by
  simp only [stepOp, hf, allocOp_ok _ _ hopen hcap]

theorem step_construct2_arena (s : Nat) (st : PState) (v w : Var) (f : Frame)
    (rest : List Frame) (hf : st.scopes.frames = f :: rest)
    (hopen : f.rm.isOpen = true) (hcap : f.rm.used + s ≤ f.rm.capacity) :
    stepOp s st (.constructBind2 v w) = .ok (PState.bindNew2
      { st with scopes := ⟨⟨f.handle, f.rm.pushBytes s⟩ :: rest,
        st.scopes.nextHandle⟩ } v w .arena) := by
  simp only [stepOp, hf, allocOp_ok _ _ hopen hcap]

theorem bindNew_unbound (st : PState) (v : Var) (tag : Tag)
    (h : st.env v = none) :
    st.bindNew v tag =
      { st with
        store := updStore st.store st.nextId ⟨1, tag, [], true⟩,
        nextId := st.nextId + 1,
        env := fun w => if w = v then some st.nextId else st.env w } := by
  simp only [PState.bindNew, h]

theorem bindNew_bound (st : PState) (v : Var) (tag : Tag) (old : Nat)
    (h : st.env v = some old) :
    st.bindNew v tag = PState.decRefCascade
      { st with
        store := updStore st.store st.nextId ⟨1, tag, [], true⟩,
        nextId := st.nextId + 1,
        env := fun w => if w = v then some st.nextId else st.env w } old := by
  simp only [PState.bindNew, h]

theorem bindNew2_unbound (st : PState) (v w : Var) (tag : Tag)
    (hv : st.env v = none) (hw : st.env w = none) :
    st.bindNew2 v w tag =
      { st with
        store := updStore st.store st.nextId ⟨2, tag, [], true⟩,
        nextId := st.nextId + 1,
        env := fun u => if u = v ∨ u = w then some st.nextId else st.env u } := by
  simp only [PState.bindNew2, hv, hw]

theorem runOps_cons (s : Nat) (st st1 : PState) (op : Op) (rest : List Op)
    (h : stepOp s st op = .ok st1) :
    runOps s st (op :: rest) = runOps s st1 rest := by
  simp only [runOps, h]

theorem runOps_append (s : Nat) (a : List Op) :
    ∀ (b : List Op) (st : PState),
      runOps s st (a ++ b) =
        (match runOps s st a with
         | .ok st1 => runOps s st1 b
         | .error e => .error e) := by
  induction a with
  | nil => intro b st; rfl
  | cons op rest ih =>
      intro b st
      show runOps s st (op :: (rest ++ b)) = _
      simp only [runOps]
      cases hst : stepOp s st op with
      | ok st1 => simp only [hst]; exact ih b st1
      | error e => simp only [hst]

theorem repOps_append_self (n : Nat) (l : List Op) :
    repOps n l ++ l = l ++ repOps n l := by
  induction n with
  | zero => simp [repOps]
  | succ n ih =>
      show (l ++ repOps n l) ++ l = l ++ (l ++ repOps n l)
      rw [List.append_assoc, ih]

theorem range_flatMap_eq_repOps (n : Nat) (l : List Op) :
    ((List.range n).flatMap fun _ => l) = repOps n l := by
  induction n with
  | zero => rfl
  | succ n ih =>
      rw [List.range_succ, List.flatMap_append, ih]
      simp only [List.flatMap_cons, List.flatMap_nil, List.append_nil]
      exact repOps_append_self n l

/-- One inner-loop iteration of the arena benchmark
(`new = ArenaAllocatable(); ob.a = new; ob = new`) carries the loop
invariant from `k` to `k + 1`: the fresh node is allocated from the open
arena, linked from the previous node's field `a`, and the locals move to
it. -/
theorem loop_body (s b h0 k : Nat) (st : PState)
    (hk1 : 1 ≤ k) (hk : k + 2 ≤ 20001) (hcap : 20001 * s ≤ 2 ^ 32)
    (hinv : LoopInv s b h0 k st) :
    ∃ st', runOps s st loopBodyOps = .ok st' ∧ LoopInv s b h0 (k + 1) st' := by
  obtain ⟨hsc, hwh, hroot, hob, hnew, hnid, hstb, hmid, hstk, hfresh⟩ := hinv
  have hk2s : (k + 2) * s ≤ 2 ^ 32 := le_trans (Nat.mul_le_mul_right s hk) hcap
  have hmax : (2 : Nat) ^ 32 ≤ max (2 ^ 32) s := le_max_left _ _
  have harith : (k + 1) * s + s = (k + 2) * s := by ring
  have hnh : st.scopes.nextHandle = h0 + 1 := by rw [hsc]
  have hf : st.scopes.frames =
      ⟨h0, ⟨2 ^ 32, 2 ^ 32, [⟨max (2 ^ 32) s, (k + 1) * s⟩],
        (k + 1) * s, true⟩⟩ :: [] := by rw [hsc]
  have hpush : (⟨2 ^ 32, 2 ^ 32, [⟨max (2 ^ 32) s, (k + 1) * s⟩],
      (k + 1) * s, true⟩ : RegionManager).pushBytes s =
      ⟨2 ^ 32, 2 ^ 32, [⟨max (2 ^ 32) s, (k + 2) * s⟩], (k + 2) * s, true⟩ := by
    simp only [RegionManager.pushBytes]
    rw [if_pos (by show (k + 1) * s + s ≤ max (2 ^ 32) s; rw [harith]; omega)]
    rw [harith]
  have hlook1 : (updStore st.store st.nextId ⟨1, Tag.arena, [], true⟩) (b + k) =
      some ⟨3, Tag.arena, [], true⟩ := by
    rw [hnid, updStore_ne _ _ _ _ (by omega : b + k ≠ b + k + 1)]
    exact hstk
  have hstep1 : stepOp s st (.constructBind .vnew) = .ok
      { st with
        scopes := ⟨[⟨h0, ⟨2 ^ 32, 2 ^ 32, [⟨max (2 ^ 32) s, (k + 2) * s⟩],
          (k + 2) * s, true⟩⟩], st.scopes.nextHandle⟩,
        store := updStore (updStore st.store st.nextId ⟨1, Tag.arena, [], true⟩)
          (b + k) ⟨2, Tag.arena, [], true⟩,
        nextId := st.nextId + 1,
        env := fun w => if w = Var.vnew then some st.nextId else st.env w } := by
    rw [step_construct_arena s st .vnew
      ⟨h0, ⟨2 ^ 32, 2 ^ 32, [⟨max (2 ^ 32) s, (k + 1) * s⟩], (k + 1) * s, true⟩⟩ []
      hf rfl (by show (k + 1) * s + s ≤ 2 ^ 32; rw [harith]; exact hk2s)]
    show Except.ok (PState.bindNew
      { st with scopes := ⟨[⟨h0, RegionManager.pushBytes
          ⟨2 ^ 32, 2 ^ 32, [⟨max (2 ^ 32) s, (k + 1) * s⟩], (k + 1) * s, true⟩ s⟩],
        st.scopes.nextHandle⟩ } Var.vnew Tag.arena) = _
    rw [hpush]
    rw [bindNew_bound
      { st with scopes := ⟨[⟨h0, ⟨2 ^ 32, 2 ^ 32, [⟨max (2 ^ 32) s, (k + 2) * s⟩],
          (k + 2) * s, true⟩⟩], st.scopes.nextHandle⟩ } Var.vnew Tag.arena (b + k) hnew]
    show Except.ok (PState.decRefCascade
      { st with
        scopes := ⟨[⟨h0, ⟨2 ^ 32, 2 ^ 32, [⟨max (2 ^ 32) s, (k + 2) * s⟩],
          (k + 2) * s, true⟩⟩], st.scopes.nextHandle⟩,
        store := updStore st.store st.nextId ⟨1, Tag.arena, [], true⟩,
        nextId := st.nextId + 1,
        env := fun w => if w = Var.vnew then some st.nextId else st.env w } (b + k)) = _
    rw [cascade_dec
      { st with
        scopes := ⟨[⟨h0, ⟨2 ^ 32, 2 ^ 32, [⟨max (2 ^ 32) s, (k + 2) * s⟩],
          (k + 2) * s, true⟩⟩], st.scopes.nextHandle⟩,
        store := updStore st.store st.nextId ⟨1, Tag.arena, [], true⟩,
        nextId := st.nextId + 1,
        env := fun w => if w = Var.vnew then some st.nextId else st.env w }
      (b + k) ⟨3, Tag.arena, [], true⟩ hlook1 rfl (by norm_num)]
    rfl
  have hstep2 : stepOp s
      { st with
        scopes := ⟨[⟨h0, ⟨2 ^ 32, 2 ^ 32, [⟨max (2 ^ 32) s, (k + 2) * s⟩],
          (k + 2) * s, true⟩⟩], st.scopes.nextHandle⟩,
        store := updStore (updStore st.store st.nextId ⟨1, Tag.arena, [], true⟩)
          (b + k) ⟨2, Tag.arena, [], true⟩,
        nextId := st.nextId + 1,
        env := fun w => if w = Var.vnew then some st.nextId else st.env w }
      (.setFieldA .vob .vnew) = .ok
      { st with
        scopes := ⟨[⟨h0, ⟨2 ^ 32, 2 ^ 32, [⟨max (2 ^ 32) s, (k + 2) * s⟩],
          (k + 2) * s, true⟩⟩], st.scopes.nextHandle⟩,
        store := updStore (updStore (updStore (updStore st.store st.nextId
            ⟨1, Tag.arena, [], true⟩) (b + k) ⟨2, Tag.arena, [], true⟩)
          (b + k) ⟨2, Tag.arena, [st.nextId], true⟩) st.nextId ⟨2, Tag.arena, [], true⟩,
        nextId := st.nextId + 1,
        env := fun w => if w = Var.vnew then some st.nextId else st.env w } := by
    rw [step_setFieldA s _ .vob .vnew (b + k) st.nextId ⟨2, Tag.arena, [], true⟩
      (by show (if Var.vob = Var.vnew then some st.nextId else st.env Var.vob) =
            some (b + k)
          rw [if_neg (by decide)]; exact hob)
      (by show (if Var.vnew = Var.vnew then some st.nextId else st.env Var.vnew) =
            some st.nextId
          rw [if_pos rfl])
      (by exact updStore_same _ _ _)]
    show Except.ok
      { st with
        scopes := ⟨[⟨h0, ⟨2 ^ 32, 2 ^ 32, [⟨max (2 ^ 32) s, (k + 2) * s⟩],
          (k + 2) * s, true⟩⟩], st.scopes.nextHandle⟩,
        store := incRefAt (updStore (updStore (updStore st.store st.nextId
            ⟨1, Tag.arena, [], true⟩) (b + k) ⟨2, Tag.arena, [], true⟩)
          (b + k) ⟨2, Tag.arena, [st.nextId], true⟩) st.nextId,
        nextId := st.nextId + 1,
        env := fun w => if w = Var.vnew then some st.nextId else st.env w } = _
    rw [incRefAt_some _ st.nextId ⟨1, Tag.arena, [], true⟩
      (by
        rw [hnid, updStore_ne _ _ _ _ (by omega : b + k + 1 ≠ b + k),
          updStore_ne _ _ _ _ (by omega : b + k + 1 ≠ b + k), updStore_same])]
  have hstep3 : stepOp s
      { st with
        scopes := ⟨[⟨h0, ⟨2 ^ 32, 2 ^ 32, [⟨max (2 ^ 32) s, (k + 2) * s⟩],
          (k + 2) * s, true⟩⟩], st.scopes.nextHandle⟩,
        store := updStore (updStore (updStore (updStore st.store st.nextId
            ⟨1, Tag.arena, [], true⟩) (b + k) ⟨2, Tag.arena, [], true⟩)
          (b + k) ⟨2, Tag.arena, [st.nextId], true⟩) st.nextId ⟨2, Tag.arena, [], true⟩,
        nextId := st.nextId + 1,
        env := fun w => if w = Var.vnew then some st.nextId else st.env w }
      (.bindCopy .vob .vnew) = .ok
      { st with
        scopes := ⟨[⟨h0, ⟨2 ^ 32, 2 ^ 32, [⟨max (2 ^ 32) s, (k + 2) * s⟩],
          (k + 2) * s, true⟩⟩], st.scopes.nextHandle⟩,
        store := updStore (updStore (updStore (updStore (updStore (updStore st.store
            st.nextId ⟨1, Tag.arena, [], true⟩) (b + k) ⟨2, Tag.arena, [], true⟩)
          (b + k) ⟨2, Tag.arena, [st.nextId], true⟩) st.nextId ⟨2, Tag.arena, [], true⟩)
          st.nextId ⟨3, Tag.arena, [], true⟩) (b + k) ⟨1, Tag.arena, [st.nextId], true⟩,
        nextId := st.nextId + 1,
        env := fun u => if u = Var.vob then some st.nextId
          else if u = Var.vnew then some st.nextId else st.env u } := by
    rw [step_bindCopy s _ .vob .vnew st.nextId (b + k)
      (by show (if Var.vnew = Var.vnew then some st.nextId else st.env Var.vnew) =
            some st.nextId
          rw [if_pos rfl])
      (by show (if Var.vob = Var.vnew then some st.nextId else st.env Var.vob) =
            some (b + k)
          rw [if_neg (by decide)]; exact hob)]
    show Except.ok (PState.decRefCascade
      { st with
        scopes := ⟨[⟨h0, ⟨2 ^ 32, 2 ^ 32, [⟨max (2 ^ 32) s, (k + 2) * s⟩],
          (k + 2) * s, true⟩⟩], st.scopes.nextHandle⟩,
        store := incRefAt (updStore (updStore (updStore (updStore st.store st.nextId
            ⟨1, Tag.arena, [], true⟩) (b + k) ⟨2, Tag.arena, [], true⟩)
          (b + k) ⟨2, Tag.arena, [st.nextId], true⟩) st.nextId ⟨2, Tag.arena, [], true⟩)
          st.nextId,
        nextId := st.nextId + 1,
        env := fun u => if u = Var.vob then some st.nextId
          else if u = Var.vnew then some st.nextId else st.env u } (b + k)) = _
    rw [incRefAt_some _ st.nextId ⟨2, Tag.arena, [], true⟩ (by exact updStore_same _ _ _)]
    rw [cascade_dec
      { st with
        scopes := ⟨[⟨h0, ⟨2 ^ 32, 2 ^ 32, [⟨max (2 ^ 32) s, (k + 2) * s⟩],
          (k + 2) * s, true⟩⟩], st.scopes.nextHandle⟩,
        store := updStore (updStore (updStore (updStore (updStore st.store st.nextId
            ⟨1, Tag.arena, [], true⟩) (b + k) ⟨2, Tag.arena, [], true⟩)
          (b + k) ⟨2, Tag.arena, [st.nextId], true⟩) st.nextId ⟨2, Tag.arena, [], true⟩)
          st.nextId ⟨3, Tag.arena, [], true⟩,
        nextId := st.nextId + 1,
        env := fun u => if u = Var.vob then some st.nextId
          else if u = Var.vnew then some st.nextId else st.env u }
      (b + k) ⟨2, Tag.arena, [st.nextId], true⟩
      (by
        show (updStore (updStore (updStore (updStore (updStore st.store st.nextId
            ⟨1, Tag.arena, [], true⟩) (b + k) ⟨2, Tag.arena, [], true⟩)
          (b + k) ⟨2, Tag.arena, [st.nextId], true⟩) st.nextId ⟨2, Tag.arena, [], true⟩)
          st.nextId ⟨3, Tag.arena, [], true⟩) (b + k) =
          some ⟨2, Tag.arena, [st.nextId], true⟩
        rw [hnid, updStore_ne _ _ _ _ (by omega : b + k ≠ b + k + 1),
          updStore_ne _ _ _ _ (by omega : b + k ≠ b + k + 1), updStore_same])
      rfl (by norm_num)]
    rfl
  refine ⟨{ st with
    scopes := ⟨[⟨h0, ⟨2 ^ 32, 2 ^ 32, [⟨max (2 ^ 32) s, (k + 2) * s⟩],
      (k + 2) * s, true⟩⟩], st.scopes.nextHandle⟩,
    store := updStore (updStore (updStore (updStore (updStore (updStore st.store
        st.nextId ⟨1, Tag.arena, [], true⟩) (b + k) ⟨2, Tag.arena, [], true⟩)
      (b + k) ⟨2, Tag.arena, [st.nextId], true⟩) st.nextId ⟨2, Tag.arena, [], true⟩)
      st.nextId ⟨3, Tag.arena, [], true⟩) (b + k) ⟨1, Tag.arena, [st.nextId], true⟩,
    nextId := st.nextId + 1,
    env := fun u => if u = Var.vob then some st.nextId
      else if u = Var.vnew then some st.nextId else st.env u }, ?_, ?_⟩
  · show runOps s st
      (Op.constructBind .vnew :: Op.setFieldA .vob .vnew :: Op.bindCopy .vob .vnew :: []) = _
    rw [runOps_cons _ _ _ _ _ hstep1, runOps_cons _ _ _ _ _ hstep2,
      runOps_cons _ _ _ _ _ hstep3]
    rfl
  · refine ⟨?_, ?_, ?_, ?_, ?_, ?_, ?_, ?_, ?_, ?_⟩
    · show (⟨[⟨h0, ⟨2 ^ 32, 2 ^ 32, [⟨max (2 ^ 32) s, (k + 2) * s⟩], (k + 2) * s,
        true⟩⟩], st.scopes.nextHandle⟩ : ScopeStack) = _
      rw [hnh]
    · show st.withHandles = [h0]
      exact hwh
    · show (if Var.vroot = Var.vob then some st.nextId
        else if Var.vroot = Var.vnew then some st.nextId else st.env Var.vroot) = some b
      rw [if_neg (by decide), if_neg (by decide)]
      exact hroot
    · show (if Var.vob = Var.vob then some st.nextId
        else if Var.vob = Var.vnew then some st.nextId else st.env Var.vob) =
        some (b + (k + 1))
      rw [if_pos rfl, hnid]
      rfl
    · show (if Var.vnew = Var.vob then some st.nextId
        else if Var.vnew = Var.vnew then some st.nextId else st.env Var.vnew) =
        some (b + (k + 1))
      rw [if_neg (by decide), if_pos rfl, hnid]
      rfl
    · show st.nextId + 1 = b + (k + 1) + 1
      rw [hnid]
      rfl
    · show updStore _ _ _ b = some ⟨1, Tag.arena, [b + 1], true⟩
      rw [updStore_ne _ _ _ _ (by omega : b ≠ b + k),
        updStore_ne _ _ _ _ (by rw [hnid]; omega : b ≠ st.nextId),
        updStore_ne _ _ _ _ (by rw [hnid]; omega : b ≠ st.nextId),
        updStore_ne _ _ _ _ (by omega : b ≠ b + k),
        updStore_ne _ _ _ _ (by omega : b ≠ b + k),
        updStore_ne _ _ _ _ (by rw [hnid]; omega : b ≠ st.nextId)]
      exact hstb
    · intro j hj1 hjk
      by_cases hjlt : j < k
      · show updStore _ _ _ (b + j) = some ⟨1, Tag.arena, [b + j + 1], true⟩
        rw [updStore_ne _ _ _ _ (by omega : b + j ≠ b + k),
          updStore_ne _ _ _ _ (by rw [hnid]; omega : b + j ≠ st.nextId),
          updStore_ne _ _ _ _ (by rw [hnid]; omega : b + j ≠ st.nextId),
          updStore_ne _ _ _ _ (by omega : b + j ≠ b + k),
          updStore_ne _ _ _ _ (by omega : b + j ≠ b + k),
          updStore_ne _ _ _ _ (by rw [hnid]; omega : b + j ≠ st.nextId)]
        exact hmid j hj1 hjlt
      · have hjeq : j = k := by omega
        subst hjeq
        show updStore _ _ _ (b + j) = some ⟨1, Tag.arena, [b + j + 1], true⟩
        rw [updStore_same]
        rw [hnid]
    · show updStore _ _ _ (b + (k + 1)) = some ⟨3, Tag.arena, [], true⟩
      have hx : b + (k + 1) = st.nextId := by rw [hnid]; rfl
      rw [hx, updStore_ne _ _ _ _ (by rw [hnid]; omega : st.nextId ≠ b + k),
        updStore_same]
    · intro id hid
      have hid2 : st.nextId + 1 ≤ id := hid
      show updStore _ _ _ id = none
      rw [updStore_ne _ _ _ _ (by rw [hnid] at hid2; omega : id ≠ b + k),
        updStore_ne _ _ _ _ (by omega : id ≠ st.nextId),
        updStore_ne _ _ _ _ (by omega : id ≠ st.nextId),
        updStore_ne _ _ _ _ (by rw [hnid] at hid2; omega : id ≠ b + k),
        updStore_ne _ _ _ _ (by rw [hnid] at hid2; omega : id ≠ b + k),
        updStore_ne _ _ _ _ (by omega : id ≠ st.nextId)]
      exact hfresh id (by omega)

/-- The first inner-loop iteration of the arena benchmark establishes the
loop invariant at `k = 1` from the state right after
`root = ob = ArenaAllocatable()`. -/
theorem loop_first (s b h0 : Nat) (st : PState)
    (hcap : 20001 * s ≤ 2 ^ 32)
    (hsc : st.scopes = ⟨[⟨h0, ⟨2 ^ 32, 2 ^ 32, [⟨max (2 ^ 32) s, s⟩], s, true⟩⟩],
      h0 + 1⟩)
    (hwh : st.withHandles = [h0])
    (hroot : st.env .vroot = some b)
    (hob : st.env .vob = some b)
    (hnew : st.env .vnew = none)
    (hnid : st.nextId = b + 1)
    (hstb : st.store b = some ⟨2, Tag.arena, [], true⟩)
    (hfresh : ∀ id, st.nextId ≤ id → st.store id = none) :
    ∃ st', runOps s st loopBodyOps = .ok st' ∧ LoopInv s b h0 1 st' := by
  have h2s : 2 * s ≤ 2 ^ 32 :=
    le_trans (Nat.mul_le_mul_right s (by norm_num : (2 : Nat) ≤ 20001)) hcap
  have hmax : (2 : Nat) ^ 32 ≤ max (2 ^ 32) s := le_max_left _ _
  have harith : s + s = 2 * s := by ring
  have hnh : st.scopes.nextHandle = h0 + 1 := by rw [hsc]
  have hf : st.scopes.frames =
      ⟨h0, ⟨2 ^ 32, 2 ^ 32, [⟨max (2 ^ 32) s, s⟩], s, true⟩⟩ :: [] := by rw [hsc]
  have hpush : (⟨2 ^ 32, 2 ^ 32, [⟨max (2 ^ 32) s, s⟩], s, true⟩ :
      RegionManager).pushBytes s =
      ⟨2 ^ 32, 2 ^ 32, [⟨max (2 ^ 32) s, 2 * s⟩], 2 * s, true⟩ := by
    simp only [RegionManager.pushBytes]
    rw [if_pos (by show s + s ≤ max (2 ^ 32) s; rw [harith]; omega)]
    rw [harith]
  have hstep1 : stepOp s st (.constructBind .vnew) = .ok
      { st with
        scopes := ⟨[⟨h0, ⟨2 ^ 32, 2 ^ 32, [⟨max (2 ^ 32) s, 2 * s⟩], 2 * s, true⟩⟩],
          st.scopes.nextHandle⟩,
        store := updStore st.store st.nextId ⟨1, Tag.arena, [], true⟩,
        nextId := st.nextId + 1,
        env := fun w => if w = Var.vnew then some st.nextId else st.env w } := by
    rw [step_construct_arena s st .vnew
      ⟨h0, ⟨2 ^ 32, 2 ^ 32, [⟨max (2 ^ 32) s, s⟩], s, true⟩⟩ []
      hf rfl (by show s + s ≤ 2 ^ 32; rw [harith]; exact h2s)]
    show Except.ok (PState.bindNew
      { st with scopes := ⟨[⟨h0, RegionManager.pushBytes
          ⟨2 ^ 32, 2 ^ 32, [⟨max (2 ^ 32) s, s⟩], s, true⟩ s⟩],
        st.scopes.nextHandle⟩ } Var.vnew Tag.arena) = _
    rw [hpush]
    rw [bindNew_unbound
      { st with scopes := ⟨[⟨h0, ⟨2 ^ 32, 2 ^ 32, [⟨max (2 ^ 32) s, 2 * s⟩],
          2 * s, true⟩⟩], st.scopes.nextHandle⟩ } Var.vnew Tag.arena hnew]
  have hstep2 : stepOp s
      { st with
        scopes := ⟨[⟨h0, ⟨2 ^ 32, 2 ^ 32, [⟨max (2 ^ 32) s, 2 * s⟩], 2 * s, true⟩⟩],
          st.scopes.nextHandle⟩,
        store := updStore st.store st.nextId ⟨1, Tag.arena, [], true⟩,
        nextId := st.nextId + 1,
        env := fun w => if w = Var.vnew then some st.nextId else st.env w }
      (.setFieldA .vob .vnew) = .ok
      { st with
        scopes := ⟨[⟨h0, ⟨2 ^ 32, 2 ^ 32, [⟨max (2 ^ 32) s, 2 * s⟩], 2 * s, true⟩⟩],
          st.scopes.nextHandle⟩,
        store := updStore (updStore (updStore st.store st.nextId
            ⟨1, Tag.arena, [], true⟩) b ⟨2, Tag.arena, [st.nextId], true⟩)
          st.nextId ⟨2, Tag.arena, [], true⟩,
        nextId := st.nextId + 1,
        env := fun w => if w = Var.vnew then some st.nextId else st.env w } := by
    rw [step_setFieldA s _ .vob .vnew b st.nextId ⟨2, Tag.arena, [], true⟩
      (by show (if Var.vob = Var.vnew then some st.nextId else st.env Var.vob) =
            some b
          rw [if_neg (by decide)]; exact hob)
      (by show (if Var.vnew = Var.vnew then some st.nextId else st.env Var.vnew) =
            some st.nextId
          rw [if_pos rfl])
      (by show (updStore st.store st.nextId ⟨1, Tag.arena, [], true⟩) b =
            some ⟨2, Tag.arena, [], true⟩
          rw [hnid, updStore_ne _ _ _ _ (by omega : b ≠ b + 1)]
          exact hstb)]
    show Except.ok
      { st with
        scopes := ⟨[⟨h0, ⟨2 ^ 32, 2 ^ 32, [⟨max (2 ^ 32) s, 2 * s⟩], 2 * s, true⟩⟩],
          st.scopes.nextHandle⟩,
        store := incRefAt (updStore (updStore st.store st.nextId
            ⟨1, Tag.arena, [], true⟩) b ⟨2, Tag.arena, [st.nextId], true⟩) st.nextId,
        nextId := st.nextId + 1,
        env := fun w => if w = Var.vnew then some st.nextId else st.env w } = _
    rw [incRefAt_some _ st.nextId ⟨1, Tag.arena, [], true⟩
      (by
        rw [hnid, updStore_ne _ _ _ _ (by omega : b + 1 ≠ b), updStore_same])]
  have hstep3 : stepOp s
      { st with
        scopes := ⟨[⟨h0, ⟨2 ^ 32, 2 ^ 32, [⟨max (2 ^ 32) s, 2 * s⟩], 2 * s, true⟩⟩],
          st.scopes.nextHandle⟩,
        store := updStore (updStore (updStore st.store st.nextId
            ⟨1, Tag.arena, [], true⟩) b ⟨2, Tag.arena, [st.nextId], true⟩)
          st.nextId ⟨2, Tag.arena, [], true⟩,
        nextId := st.nextId + 1,
        env := fun w => if w = Var.vnew then some st.nextId else st.env w }
      (.bindCopy .vob .vnew) = .ok
      { st with
        scopes := ⟨[⟨h0, ⟨2 ^ 32, 2 ^ 32, [⟨max (2 ^ 32) s, 2 * s⟩], 2 * s, true⟩⟩],
          st.scopes.nextHandle⟩,
        store := updStore (updStore (updStore (updStore (updStore st.store st.nextId
            ⟨1, Tag.arena, [], true⟩) b ⟨2, Tag.arena, [st.nextId], true⟩)
          st.nextId ⟨2, Tag.arena, [], true⟩) st.nextId ⟨3, Tag.arena, [], true⟩)
          b ⟨1, Tag.arena, [st.nextId], true⟩,
        nextId := st.nextId + 1,
        env := fun u => if u = Var.vob then some st.nextId
          else if u = Var.vnew then some st.nextId else st.env u } := by
    rw [step_bindCopy s _ .vob .vnew st.nextId b
      (by show (if Var.vnew = Var.vnew then some st.nextId else st.env Var.vnew) =
            some st.nextId
          rw [if_pos rfl])
      (by show (if Var.vob = Var.vnew then some st.nextId else st.env Var.vob) =
            some b
          rw [if_neg (by decide)]; exact hob)]
    show Except.ok (PState.decRefCascade
      { st with
        scopes := ⟨[⟨h0, ⟨2 ^ 32, 2 ^ 32, [⟨max (2 ^ 32) s, 2 * s⟩], 2 * s, true⟩⟩],
          st.scopes.nextHandle⟩,
        store := incRefAt (updStore (updStore (updStore st.store st.nextId
            ⟨1, Tag.arena, [], true⟩) b ⟨2, Tag.arena, [st.nextId], true⟩)
          st.nextId ⟨2, Tag.arena, [], true⟩) st.nextId,
        nextId := st.nextId + 1,
        env := fun u => if u = Var.vob then some st.nextId
          else if u = Var.vnew then some st.nextId else st.env u } b) = _
    rw [incRefAt_some _ st.nextId ⟨2, Tag.arena, [], true⟩ (by exact updStore_same _ _ _)]
    rw [cascade_dec
      { st with
        scopes := ⟨[⟨h0, ⟨2 ^ 32, 2 ^ 32, [⟨max (2 ^ 32) s, 2 * s⟩], 2 * s, true⟩⟩],
          st.scopes.nextHandle⟩,
        store := updStore (updStore (updStore (updStore st.store st.nextId
            ⟨1, Tag.arena, [], true⟩) b ⟨2, Tag.arena, [st.nextId], true⟩)
          st.nextId ⟨2, Tag.arena, [], true⟩) st.nextId ⟨3, Tag.arena, [], true⟩,
        nextId := st.nextId + 1,
        env := fun u => if u = Var.vob then some st.nextId
          else if u = Var.vnew then some st.nextId else st.env u }
      b ⟨2, Tag.arena, [st.nextId], true⟩
      (by
        show (updStore (updStore (updStore (updStore st.store st.nextId
            ⟨1, Tag.arena, [], true⟩) b ⟨2, Tag.arena, [st.nextId], true⟩)
          st.nextId ⟨2, Tag.arena, [], true⟩) st.nextId ⟨3, Tag.arena, [], true⟩) b =
          some ⟨2, Tag.arena, [st.nextId], true⟩
        rw [hnid, updStore_ne _ _ _ _ (by omega : b ≠ b + 1),
          updStore_ne _ _ _ _ (by omega : b ≠ b + 1), updStore_same])
      rfl (by norm_num)]
    rfl
  refine ⟨{ st with
    scopes := ⟨[⟨h0, ⟨2 ^ 32, 2 ^ 32, [⟨max (2 ^ 32) s, 2 * s⟩], 2 * s, true⟩⟩],
      st.scopes.nextHandle⟩,
    store := updStore (updStore (updStore (updStore (updStore st.store st.nextId
        ⟨1, Tag.arena, [], true⟩) b ⟨2, Tag.arena, [st.nextId], true⟩)
      st.nextId ⟨2, Tag.arena, [], true⟩) st.nextId ⟨3, Tag.arena, [], true⟩)
      b ⟨1, Tag.arena, [st.nextId], true⟩,
    nextId := st.nextId + 1,
    env := fun u => if u = Var.vob then some st.nextId
      else if u = Var.vnew then some st.nextId else st.env u }, ?_, ?_⟩
  · show runOps s st
      (Op.constructBind .vnew :: Op.setFieldA .vob .vnew :: Op.bindCopy .vob .vnew :: []) = _
    rw [runOps_cons _ _ _ _ _ hstep1, runOps_cons _ _ _ _ _ hstep2,
      runOps_cons _ _ _ _ _ hstep3]
    rfl
  · refine ⟨?_, ?_, ?_, ?_, ?_, ?_, ?_, ?_, ?_, ?_⟩
    · show (⟨[⟨h0, ⟨2 ^ 32, 2 ^ 32, [⟨max (2 ^ 32) s, 2 * s⟩], 2 * s,
        true⟩⟩], st.scopes.nextHandle⟩ : ScopeStack) = _
      rw [hnh]
    · show st.withHandles = [h0]
      exact hwh
    · show (if Var.vroot = Var.vob then some st.nextId
        else if Var.vroot = Var.vnew then some st.nextId else st.env Var.vroot) = some b
      rw [if_neg (by decide), if_neg (by decide)]
      exact hroot
    · show (if Var.vob = Var.vob then some st.nextId
        else if Var.vob = Var.vnew then some st.nextId else st.env Var.vob) =
        some (b + 1)
      rw [if_pos rfl, hnid]
    · show (if Var.vnew = Var.vob then some st.nextId
        else if Var.vnew = Var.vnew then some st.nextId else st.env Var.vnew) =
        some (b + 1)
      rw [if_neg (by decide), if_pos rfl, hnid]
    · show st.nextId + 1 = b + 1 + 1
      rw [hnid]
    · show updStore _ _ _ b = some ⟨1, Tag.arena, [b + 1], true⟩
      rw [updStore_same, hnid]
    · intro j hj1 hjk
      omega
    · show updStore _ _ _ (b + 1) = some ⟨3, Tag.arena, [], true⟩
      have hx : b + 1 = st.nextId := by rw [hnid]
      rw [hx, updStore_ne _ _ _ _ (by rw [hnid]; omega : st.nextId ≠ b),
        updStore_same]
    · intro id hid
      have hid2 : st.nextId + 1 ≤ id := hid
      show updStore _ _ _ id = none
      rw [updStore_ne _ _ _ _ (by rw [hnid] at hid2; omega : id ≠ b),
        updStore_ne _ _ _ _ (by omega : id ≠ st.nextId),
        updStore_ne _ _ _ _ (by omega : id ≠ st.nextId),
        updStore_ne _ _ _ _ (by rw [hnid] at hid2; omega : id ≠ b),
        updStore_ne _ _ _ _ (by omega : id ≠ st.nextId)]
      exact hfresh id (by omega)

/-- Running the remaining `n` inner-loop iterations from invariant index
`k` reaches the invariant at 20000. -/
theorem loop_run (s b h0 : Nat) (hcap : 20001 * s ≤ 2 ^ 32) :
    ∀ (n k : Nat) (st : PState), 1 ≤ k → k + n = 20000 →
      LoopInv s b h0 k st →
      ∃ st', runOps s st (repOps n loopBodyOps) = .ok st' ∧
        LoopInv s b h0 20000 st' := by
  intro n
  induction n with
  | zero =>
      intro k st hk1 hkn hinv
      have hke : k = 20000 := by omega
      subst hke
      exact ⟨st, rfl, hinv⟩
  | succ n ih =>
      intro k st hk1 hkn hinv
      obtain ⟨st1, hrun1, hinv1⟩ := loop_body s b h0 k st hk1 (by omega) hcap hinv
      obtain ⟨st2, hrun2, hinv2⟩ := ih (k + 1) st1 (by omega) (by omega) hinv1
      refine ⟨st2, ?_, hinv2⟩
      show runOps s st (loopBodyOps ++ repOps n loopBodyOps) = .ok st2
      rw [runOps_append, hrun1]
      exact hrun2

/-- C1: every outer-loop iteration of the arena benchmark performs the
spec's concrete scenario and completes with success and no overflow:
from any ready state it enters an arena scope of capacity `2 ^ 32`,
allocates the root instance and 20000 chained instances (each linked
from the previous instance's field `a`), drops all the local bindings,
exits the scope, and returns a ready state; the 20001 fresh instances
form the chain in the final store, the root left at count 0 with its
storage untouched.  `s` is the per-instance size; the scenario fits the
capacity whenever `20001 * s ≤ 2 ^ 32`. -/
theorem C1_bench_iteration_succeeds (s : Nat) (st : PState)
    (hready : IterReady st) (hcap : 20001 * s ≤ 2 ^ 32) :
    ∃ st', runOps s st benchIterArena = .ok st' ∧ IterReady st' ∧
      st'.nextId = st.nextId + 20001 ∧
      st'.store st.nextId = some ⟨0, .arena, [st.nextId + 1], true⟩ ∧
      (∀ j, 1 ≤ j → j < 20000 →
         st'.store (st.nextId + j) = some ⟨1, .arena, [st.nextId + j + 1], true⟩) ∧
      st'.store (st.nextId + 20000) = some ⟨1, .arena, [], true⟩ := by
  obtain ⟨hsf, hwh, henv, hfresh⟩ := hready
  have hdec : benchIterArena = Op.enterArena (2 ^ 32) ::
      Op.constructBind2 .vroot .vob ::
      (repOps 20000 loopBodyOps ++
        [Op.del .vnew, Op.del .vob, Op.del .vroot, Op.exitArena]) := by
    show Op.enterArena (2 ^ 32) :: Op.constructBind2 .vroot .vob ::
      (((List.range 20000).flatMap fun _ => loopBodyOps) ++
        [Op.del .vnew, Op.del .vob, Op.del .vroot, Op.exitArena]) = _
    rw [range_flatMap_eq_repOps]
  have hs1 : s ≤ 2 ^ 32 :=
    le_trans (Nat.le_mul_of_pos_left s (by norm_num : 0 < 20001)) hcap
  have hstep1 : stepOp s st (.enterArena (2 ^ 32)) = .ok
      { st with
        scopes := ⟨[⟨st.scopes.nextHandle, RegionManager.create (2 ^ 32) (2 ^ 32)⟩],
          st.scopes.nextHandle + 1⟩,
        withHandles := [st.scopes.nextHandle] } := by
    rw [step_enter, hsf, hwh]
  have hpush0 : (RegionManager.create (2 ^ 32) (2 ^ 32)).pushBytes s =
      ⟨2 ^ 32, 2 ^ 32, [⟨max (2 ^ 32) s, s⟩], s, true⟩ := by
    simp only [RegionManager.create, RegionManager.pushBytes]
    rw [Nat.zero_add]
  have hstep2 : stepOp s
      { st with
        scopes := ⟨[⟨st.scopes.nextHandle, RegionManager.create (2 ^ 32) (2 ^ 32)⟩],
          st.scopes.nextHandle + 1⟩,
        withHandles := [st.scopes.nextHandle] }
      (.constructBind2 .vroot .vob) = .ok
      { st with
        scopes := ⟨[⟨st.scopes.nextHandle, ⟨2 ^ 32, 2 ^ 32, [⟨max (2 ^ 32) s, s⟩],
          s, true⟩⟩], st.scopes.nextHandle + 1⟩,
        withHandles := [st.scopes.nextHandle],
        store := updStore st.store st.nextId ⟨2, Tag.arena, [], true⟩,
        nextId := st.nextId + 1,
        env := fun u => if u = Var.vroot ∨ u = Var.vob then some st.nextId
          else st.env u } := by
    rw [step_construct2_arena s _ .vroot .vob
      ⟨st.scopes.nextHandle, RegionManager.create (2 ^ 32) (2 ^ 32)⟩ []
      rfl rfl (by show 0 + s ≤ 2 ^ 32; omega)]
    show Except.ok (PState.bindNew2
      { st with
        scopes := ⟨[⟨st.scopes.nextHandle,
          RegionManager.pushBytes (RegionManager.create (2 ^ 32) (2 ^ 32)) s⟩],
          st.scopes.nextHandle + 1⟩,
        withHandles := [st.scopes.nextHandle] } Var.vroot Var.vob Tag.arena) = _
    rw [hpush0]
    rw [bindNew2_unbound
      { st with
        scopes := ⟨[⟨st.scopes.nextHandle, ⟨2 ^ 32, 2 ^ 32, [⟨max (2 ^ 32) s, s⟩],
          s, true⟩⟩], st.scopes.nextHandle + 1⟩,
        withHandles := [st.scopes.nextHandle] } .vroot .vob Tag.arena
      (henv .vroot) (henv .vob)]
  obtain ⟨st3, hrun3, hinv3⟩ := loop_first s st.nextId st.scopes.nextHandle
    { st with
      scopes := ⟨[⟨st.scopes.nextHandle, ⟨2 ^ 32, 2 ^ 32, [⟨max (2 ^ 32) s, s⟩],
        s, true⟩⟩], st.scopes.nextHandle + 1⟩,
      withHandles := [st.scopes.nextHandle],
      store := updStore st.store st.nextId ⟨2, Tag.arena, [], true⟩,
      nextId := st.nextId + 1,
      env := fun u => if u = Var.vroot ∨ u = Var.vob then some st.nextId
        else st.env u }
    hcap rfl rfl
    (by show (if Var.vroot = Var.vroot ∨ Var.vroot = Var.vob then some st.nextId
          else st.env Var.vroot) = some st.nextId
        rw [if_pos (Or.inl rfl)])
    (by show (if Var.vob = Var.vroot ∨ Var.vob = Var.vob then some st.nextId
          else st.env Var.vob) = some st.nextId
        rw [if_pos (Or.inr rfl)])
    (by show (if Var.vnew = Var.vroot ∨ Var.vnew = Var.vob then some st.nextId
          else st.env Var.vnew) = none
        rw [if_neg (by decide)]
        exact henv .vnew)
    rfl
    (by exact updStore_same _ _ _)
    (by intro id hid
        have hid2 : st.nextId + 1 ≤ id := hid
        show updStore st.store st.nextId ⟨2, Tag.arena, [], true⟩ id = none
        rw [updStore_ne _ _ _ _ (by omega : id ≠ st.nextId)]
        exact hfresh id (by omega))
  obtain ⟨st4, hrun4, hinv4⟩ := loop_run s st.nextId st.scopes.nextHandle hcap
    19999 1 st3 (by norm_num) (by norm_num) hinv3
  obtain ⟨hsc4, hwh4, hroot4, hob4, hnew4, hnid4, hstb4, hmid4, hstk4, hfresh4⟩ := hinv4
  obtain ⟨M, hM⟩ : ∃ M, st.nextId + 20000 = M := ⟨_, rfl⟩
  rw [hM] at hnew4 hob4 hstk4 hnid4
  have hd1 : stepOp s st4 (.del .vnew) = .ok
      { st4 with
        store := updStore st4.store M ⟨2, Tag.arena, [], true⟩,
        env := fun u => if u = Var.vnew then none else st4.env u } := by
    rw [step_del s st4 .vnew M hnew4]
    show Except.ok (PState.decRefCascade
      { st4 with env := fun u => if u = Var.vnew then none else st4.env u } M) = _
    rw [cascade_dec
      { st4 with env := fun u => if u = Var.vnew then none else st4.env u }
      M ⟨3, Tag.arena, [], true⟩ hstk4 rfl (by norm_num)]
    rfl
  have hd2 : stepOp s
      { st4 with
        store := updStore st4.store M ⟨2, Tag.arena, [], true⟩,
        env := fun u => if u = Var.vnew then none else st4.env u }
      (.del .vob) = .ok
      { st4 with
        store := updStore (updStore st4.store M ⟨2, Tag.arena, [], true⟩) M
          ⟨1, Tag.arena, [], true⟩,
        env := fun u => if u = Var.vob then none
          else if u = Var.vnew then none else st4.env u } := by
    rw [step_del s _ .vob M
      (by show (if Var.vob = Var.vnew then none else st4.env Var.vob) = some M
          rw [if_neg (by decide)]; exact hob4)]
    show Except.ok (PState.decRefCascade
      { st4 with
        store := updStore st4.store M ⟨2, Tag.arena, [], true⟩,
        env := fun u => if u = Var.vob then none
          else if u = Var.vnew then none else st4.env u } M) = _
    rw [cascade_dec
      { st4 with
        store := updStore st4.store M ⟨2, Tag.arena, [], true⟩,
        env := fun u => if u = Var.vob then none
          else if u = Var.vnew then none else st4.env u }
      M ⟨2, Tag.arena, [], true⟩ (updStore_same _ _ _) rfl (by norm_num)]
    rfl
  have hlookroot : (updStore (updStore st4.store M ⟨2, Tag.arena, [], true⟩) M
      ⟨1, Tag.arena, [], true⟩) st.nextId =
      some ⟨1, Tag.arena, [st.nextId + 1], true⟩ := by
    rw [updStore_ne _ _ _ _ (by omega : st.nextId ≠ M),
      updStore_ne _ _ _ _ (by omega : st.nextId ≠ M)]
    exact hstb4
  have hfil : ([st.nextId + 1].filter fun j => isHeapTagged
      (updStore (updStore st4.store M ⟨2, Tag.arena, [], true⟩) M
        ⟨1, Tag.arena, [], true⟩) j) = [] := by
    have hlook1 : (updStore (updStore st4.store M ⟨2, Tag.arena, [], true⟩) M
        ⟨1, Tag.arena, [], true⟩) (st.nextId + 1) =
        some ⟨1, Tag.arena, [st.nextId + 1 + 1], true⟩ := by
      rw [updStore_ne _ _ _ _ (by omega : st.nextId + 1 ≠ M),
        updStore_ne _ _ _ _ (by omega : st.nextId + 1 ≠ M)]
      exact hmid4 1 (by norm_num) (by norm_num)
    have hht : isHeapTagged
        (updStore (updStore st4.store M ⟨2, Tag.arena, [], true⟩) M
          ⟨1, Tag.arena, [], true⟩) (st.nextId + 1) = false := by
      simp [isHeapTagged, hlook1]
    simp [List.filter, hht]
  have hd3 : stepOp s
      { st4 with
        store := updStore (updStore st4.store M ⟨2, Tag.arena, [], true⟩) M
          ⟨1, Tag.arena, [], true⟩,
        env := fun u => if u = Var.vob then none
          else if u = Var.vnew then none else st4.env u }
      (.del .vroot) = .ok
      { st4 with
        store := updStore (updStore (updStore st4.store M ⟨2, Tag.arena, [], true⟩) M
            ⟨1, Tag.arena, [], true⟩) st.nextId ⟨0, Tag.arena, [st.nextId + 1], true⟩,
        env := fun u => if u = Var.vroot then none
          else if u = Var.vob then none
          else if u = Var.vnew then none else st4.env u } := by
    rw [step_del s _ .vroot st.nextId
      (by show (if Var.vroot = Var.vob then none
            else if Var.vroot = Var.vnew then none else st4.env Var.vroot) =
            some st.nextId
          rw [if_neg (by decide), if_neg (by decide)]; exact hroot4)]
    show Except.ok (PState.decRefCascade
      { st4 with
        store := updStore (updStore st4.store M ⟨2, Tag.arena, [], true⟩) M
          ⟨1, Tag.arena, [], true⟩,
        env := fun u => if u = Var.vroot then none
          else if u = Var.vob then none
          else if u = Var.vnew then none else st4.env u } st.nextId) = _
    rw [cascade_zero
      { st4 with
        store := updStore (updStore st4.store M ⟨2, Tag.arena, [], true⟩) M
          ⟨1, Tag.arena, [], true⟩,
        env := fun u => if u = Var.vroot then none
          else if u = Var.vob then none
          else if u = Var.vnew then none else st4.env u }
      st.nextId [st.nextId + 1] hlookroot hfil]
  have hfr4 : st4.scopes.frames =
      (⟨st.scopes.nextHandle, ⟨2 ^ 32, 2 ^ 32,
        [⟨max (2 ^ 32) s, (20000 + 1) * s⟩], (20000 + 1) * s, true⟩⟩ : Frame) :: [] := by
    rw [hsc4]
  have hdexit : stepOp s
      { st4 with
        store := updStore (updStore (updStore st4.store M ⟨2, Tag.arena, [], true⟩) M
            ⟨1, Tag.arena, [], true⟩) st.nextId ⟨0, Tag.arena, [st.nextId + 1], true⟩,
        env := fun u => if u = Var.vroot then none
          else if u = Var.vob then none
          else if u = Var.vnew then none else st4.env u }
      .exitArena = .ok
      { st4 with
        scopes := ⟨[], st4.scopes.nextHandle⟩,
        withHandles := [],
        store := updStore (updStore (updStore st4.store M ⟨2, Tag.arena, [], true⟩) M
            ⟨1, Tag.arena, [], true⟩) st.nextId ⟨0, Tag.arena, [st.nextId + 1], true⟩,
        env := fun u => if u = Var.vroot then none
          else if u = Var.vob then none
          else if u = Var.vnew then none else st4.env u } := by
    exact step_exit s _ st.scopes.nextHandle []
      ⟨st.scopes.nextHandle, ⟨2 ^ 32, 2 ^ 32,
        [⟨max (2 ^ 32) s, (20000 + 1) * s⟩], (20000 + 1) * s, true⟩⟩ []
      hwh4 hfr4 rfl
  refine ⟨{ st4 with
      scopes := ⟨[], st4.scopes.nextHandle⟩,
      withHandles := [],
      store := updStore (updStore (updStore st4.store M ⟨2, Tag.arena, [], true⟩) M
          ⟨1, Tag.arena, [], true⟩) st.nextId ⟨0, Tag.arena, [st.nextId + 1], true⟩,
      env := fun u => if u = Var.vroot then none
        else if u = Var.vob then none
        else if u = Var.vnew then none else st4.env u }, ?_, ?_, ?_, ?_, ?_, ?_⟩
  · rw [hdec, runOps_cons _ _ _ _ _ hstep1, runOps_cons _ _ _ _ _ hstep2]
    rw [show repOps 20000 loopBodyOps =
      loopBodyOps ++ repOps 19999 loopBodyOps from rfl]
    rw [List.append_assoc]
    rw [runOps_append s loopBodyOps _ _, hrun3]
    show runOps s st3 (repOps 19999 loopBodyOps ++
      [Op.del .vnew, Op.del .vob, Op.del .vroot, Op.exitArena]) = _
    rw [runOps_append s (repOps 19999 loopBodyOps) _ _, hrun4]
    show runOps s st4
      (Op.del .vnew :: Op.del .vob :: Op.del .vroot :: Op.exitArena :: []) = _
    rw [runOps_cons _ _ _ _ _ hd1, runOps_cons _ _ _ _ _ hd2,
      runOps_cons _ _ _ _ _ hd3, runOps_cons _ _ _ _ _ hdexit]
    rfl
  · refine ⟨rfl, rfl, ?_, ?_⟩
    · intro v
      cases v with
      | vroot =>
          show (if Var.vroot = Var.vroot then none
            else if Var.vroot = Var.vob then none
            else if Var.vroot = Var.vnew then none else st4.env Var.vroot) = none
          rw [if_pos rfl]
      | vob =>
          show (if Var.vob = Var.vroot then none
            else if Var.vob = Var.vob then none
            else if Var.vob = Var.vnew then none else st4.env Var.vob) = none
          rw [if_neg (by decide), if_pos rfl]
      | vnew =>
          show (if Var.vnew = Var.vroot then none
            else if Var.vnew = Var.vob then none
            else if Var.vnew = Var.vnew then none else st4.env Var.vnew) = none
          rw [if_neg (by decide), if_neg (by decide), if_pos rfl]
    · intro id hid
      have hid2 : st4.nextId ≤ id := hid
      rw [hnid4] at hid2
      show updStore _ _ _ id = none
      rw [updStore_ne _ _ _ _ (by omega : id ≠ st.nextId),
        updStore_ne _ _ _ _ (by omega : id ≠ M),
        updStore_ne _ _ _ _ (by omega : id ≠ M)]
      exact hfresh4 id (by rw [hnid4]; omega)
  · show st4.nextId = st.nextId + 20001
    rw [hnid4]
    omega
  · show updStore _ _ _ st.nextId = some ⟨0, Tag.arena, [st.nextId + 1], true⟩
    rw [updStore_same]
  · intro j hj1 hjlt
    show updStore _ _ _ (st.nextId + j) =
      some ⟨1, Tag.arena, [st.nextId + j + 1], true⟩
    rw [updStore_ne _ _ _ _ (by omega : st.nextId + j ≠ st.nextId),
      updStore_ne _ _ _ _ (by omega : st.nextId + j ≠ M),
      updStore_ne _ _ _ _ (by omega : st.nextId + j ≠ M)]
    exact hmid4 j hj1 hjlt
  · show updStore _ _ _ (st.nextId + 20000) = some ⟨1, Tag.arena, [], true⟩
    rw [hM]
    rw [updStore_ne _ _ _ _ (by omega : M ≠ st.nextId), updStore_same]

/-- Witness for `C1_bench_iteration_succeeds` at size 64 from the initial
state. -/
theorem C1_witness :
    IterReady initState ∧ 20001 * 64 ≤ 2 ^ 32 ∧
    ∃ st', runOps 64 initState benchIterArena = .ok st' ∧ IterReady st' ∧
      st'.nextId = initState.nextId + 20001 ∧
      st'.store initState.nextId =
        some ⟨0, .arena, [initState.nextId + 1], true⟩ ∧
      (∀ j, 1 ≤ j → j < 20000 →
         st'.store (initState.nextId + j) =
           some ⟨1, .arena, [initState.nextId + j + 1], true⟩) ∧
      st'.store (initState.nextId + 20000) = some ⟨1, .arena, [], true⟩ := by
  have hready : IterReady initState :=
    ⟨rfl, rfl, fun _ => rfl, fun _ _ => rfl⟩
  exact ⟨hready, by norm_num,
    C1_bench_iteration_succeeds 64 initState hready (by norm_num)⟩

/-- C10: one outer-loop iteration of the arena benchmark performs exactly
the operations of one iteration of the no-arena benchmark — the same
root construction, the same 20000 chained constructions, link-field
assignments and rebinds, and the same deletions in the same order —
wrapped between the entry of an arena scope of capacity `2 ^ 32` and the
matching scope exit, and nothing else differs. -/
theorem C10_same_workload_modulo_scope :
    benchIterArena = Op.enterArena (2 ^ 32) :: (benchIterNoArena ++ [Op.exitArena]) := by
  simp only [benchIterArena, benchIterNoArena, List.cons_append, List.append_assoc,
    List.nil_append]

/-- Every operation of one arena-benchmark iteration is a pure allocator
workload operation. -/
theorem benchIterArena_workload (op : Op) (h : op ∈ benchIterArena) :
    isWorkloadOp op = true := by
  simp only [benchIterArena, List.mem_cons, List.mem_append, List.mem_flatMap,
    List.mem_range, List.not_mem_nil, or_false] at h
  rcases h with rfl | rfl | ⟨i, -, rfl | rfl | rfl⟩ | rfl | rfl | rfl | rfl <;> rfl

/-- Every operation of one no-arena-benchmark iteration is a pure
allocator workload operation. -/
theorem benchIterNoArena_workload (op : Op) (h : op ∈ benchIterNoArena) :
    isWorkloadOp op = true := by
  simp only [benchIterNoArena, List.mem_cons, List.mem_append, List.mem_flatMap,
    List.mem_range, List.not_mem_nil, or_false] at h
  rcases h with rfl | ⟨i, -, rfl | rfl | rfl⟩ | rfl | rfl | rfl <;> rfl

/-- C8 (amended): the benchmark harness is a pure client of the
allocator — every operation either benchmark program performs, across
all 10000 outer-loop iterations, is an allocator workload operation
(instance construction, link-field assignment, rebinding or deleting a
local reference, arena scope entry/exit); neither program performs any
measurement of its own. -/
theorem C8_pure_allocator_client :
    (∀ op ∈ benchArenaProg, isWorkloadOp op = true) ∧
    (∀ op ∈ benchNoArenaProg, isWorkloadOp op = true) := by
  constructor
  · intro op hop
    simp only [benchArenaProg, List.mem_flatMap, List.mem_range] at hop
    obtain ⟨i, -, hop⟩ := hop
    exact benchIterArena_workload op hop
  · intro op hop
    simp only [benchNoArenaProg, List.mem_flatMap, List.mem_range] at hop
    obtain ⟨i, -, hop⟩ := hop
    exact benchIterNoArena_workload op hop

/-- Witness for `C8_pure_allocator_client`: the scope entry of the first
iteration belongs to the arena benchmark's trace and is a workload
operation. -/
theorem C8_witness :
    Op.enterArena (2 ^ 32) ∈ benchArenaProg ∧
    isWorkloadOp (Op.enterArena (2 ^ 32)) = true := by
  have hmem : Op.enterArena (2 ^ 32) ∈ benchArenaProg := by
    simp only [benchArenaProg, List.mem_flatMap, List.mem_range]
    exact ⟨0, by norm_num, by simp [benchIterArena]⟩
  exact ⟨hmem, C8_pure_allocator_client.1 _ hmem⟩

/-- C8 (counterexample): contrary to the claim that the harness itself
measures the elapsed wall time of the workload, neither benchmark
program contains any wall-clock measurement operation. -/
theorem C8_counterexample_no_timing :
    ¬ (measuresWallTime benchArenaProg ∨ measuresWallTime benchNoArenaProg) := by
  rintro (h | h)
  · simp only [measuresWallTime, benchArenaProg, List.mem_flatMap, List.mem_range] at h
    obtain ⟨i, -, h⟩ := h
    have := benchIterArena_workload Op.timeProbe h
    simp [isWorkloadOp] at this
  · simp only [measuresWallTime, benchNoArenaProg, List.mem_flatMap, List.mem_range] at h
    obtain ⟨i, -, h⟩ := h
    have := benchIterNoArena_workload Op.timeProbe h
    simp [isWorkloadOp] at this

/-- C9: when the `cmake --version` probe fails with OSError (the CMake
executable is missing), `build_extensions` raises its RuntimeError
before launching anything else: no cmake configure and no cmake build
subprocess is executed. -/
theorem C9_missing_cmake_aborts_before_build (extCount : Nat) :
    (buildExtensions false extCount).snd = some BuildErr.runtimeCannotFindCMake ∧
    (∀ c ∈ (buildExtensions false extCount).fst, c = BuildCmd.cmakeVersionQuery) ∧
    (∀ i, BuildCmd.cmakeConfigure i ∉ (buildExtensions false extCount).fst ∧
       BuildCmd.cmakeBuild i ∉ (buildExtensions false extCount).fst) := by
  refine ⟨rfl, ?_, ?_⟩
  · intro c hc
    simp only [buildExtensions, if_true, List.mem_singleton] at hc
    exact hc
  · intro i
    constructor
    · intro hc
      simp only [buildExtensions, if_true, List.mem_singleton] at hc
      exact BuildCmd.noConfusion hc
    · intro hc
      simp only [buildExtensions, if_true, List.mem_singleton] at hc
      exact BuildCmd.noConfusion hc

/-- Witness for `C9_missing_cmake_aborts_before_build` with the
repository's single extension. -/
theorem C9_witness :
    (buildExtensions false 1).snd = some BuildErr.runtimeCannotFindCMake ∧
    BuildCmd.cmakeConfigure 0 ∉ (buildExtensions false 1).fst ∧
    BuildCmd.cmakeBuild 0 ∉ (buildExtensions false 1).fst :=
  ⟨(C9_missing_cmake_aborts_before_build 1).1,
   ((C9_missing_cmake_aborts_before_build 1).2.2 0).1,
   ((C9_missing_cmake_aborts_before_build 1).2.2 0).2⟩

end QuellingBlade
